import Mathlib

/-!
Verification of the radiative-convective equilibrium solver in
src/picaso/climate.py against its natural-language specification.

All numeric quantities are embedded as exact rationals (the source operates on
IEEE doubles; no claim under scrutiny depends on rounding, and the one claim
about NaN handling is settled over an explicit four-point float model `FP`
having finite/infinite/NaN values).  Transcendental operations of the source
(`exp`, `log`, `log10`, `sqrt`) are abstract function parameters of the model:
the claims under scrutiny never depend on their values.

Python/NumPy indexing conventions are embedded as follows:
- `intRange lo hi` is Python `range(lo, hi)` over integers;
- `pyGet l i` is NumPy element read `l[i]`: a negative index is end-relative;
  a read past the end yields the default 0 (reads past the end happen in the
  source only at the out-of-bounds clamp iteration documented at claim C3);
- `pySet l i x` is NumPy element write `l[i] = x` with the same convention
  (a write past the end is dropped).
-/

namespace Climate

/-- Python `range(lo, hi)` over integers, as the list `[lo, lo+1, ..., hi-1]`. -/
def intRange (lo hi : ℤ) : List ℤ :=
  (List.range (hi - lo).toNat).map (fun k => lo + (k : ℤ))

/-- NumPy-style element read `l[i]`: negative indices are end-relative. -/
def pyGet (l : List ℚ) (i : ℤ) : ℚ :=
  if 0 ≤ i then l.getD i.toNat 0 else l.getD (l.length - i.natAbs) 0

/-- NumPy-style element write `l[i] = x`: negative indices are end-relative;
an index at or past the end leaves the list unchanged. -/
def pySet (l : List ℚ) (i : ℤ) (x : ℚ) : List ℚ :=
  if 0 ≤ i then l.set i.toNat x else l.set (l.length - i.natAbs) x

/-! ## `locate` (climate.py lines 143-179)

Numerical-recipes bisection on a monotonic array.  The source initialises
`jl = 0`, `ju = n`, repeatedly bisects while `ju - jl > 1` (moving `jl` up when
`value >= array[jm]`, i.e. `array[jm] <= value`), and finally overrides the
result with `0` when `value <= array[0]` and with `n-1` when
`value >= array[-1]`. -/

/-- The bisection loop of `locate` (lines 165-172), recursing on the width
`ju - jl` of the active bracket, which shrinks by at least one per step
(`int(0.5*(ju+jl))` is floor division by 2 on naturals).  The explicit width
argument keeps the recursion structural, so that the definition evaluates
inside the kernel. -/
def bisectGo (arr : List ℚ) (v : ℚ) : ℕ → ℕ → ℕ → ℕ
  | 0, jl, _ => jl
  | fuel + 1, jl, ju =>
    if 1 < ju - jl then
      let jm := (ju + jl) / 2
      if arr.getD jm 0 ≤ v then bisectGo arr v fuel jm ju
      else bisectGo arr v fuel jl jm
    else jl

/-- The bisection loop of `locate`, entered at bracket `[jl, ju)`. -/
def bisect (arr : List ℚ) (v : ℚ) (jl ju : ℕ) : ℕ :=
  bisectGo arr v (ju - jl) jl ju

/-- The function `locate` (lines 143-179). -/
def locate (arr : List ℚ) (v : ℚ) : ℕ :=
  let n := arr.length
  let jl := bisect arr v 0 n
  if v ≤ arr.getD 0 0 then 0
  else if arr.getD (n - 1) 0 ≤ v then n - 1
  else jl

/-- Bracketing invariant of the bisection loop: starting from a bracket
`arr[jl] ≤ v` and (`ju = n` or `v < arr[ju]`), the loop returns an index `r`
with `jl ≤ r < ju`, `arr[r] ≤ v`, and either `r + 1 = n` or `v < arr[r+1]`. -/
theorem bisectGo_spec (arr : List ℚ) (v : ℚ) :
    ∀ d jl ju, ju - jl ≤ d → jl < ju → ju ≤ arr.length →
    arr.getD jl 0 ≤ v → (ju = arr.length ∨ v < arr.getD ju 0) →
    jl ≤ bisectGo arr v d jl ju ∧ bisectGo arr v d jl ju < ju ∧
      arr.getD (bisectGo arr v d jl ju) 0 ≤ v ∧
      (bisectGo arr v d jl ju + 1 = arr.length ∨
        v < arr.getD (bisectGo arr v d jl ju + 1) 0) := by
  intro d
  induction d with
  | zero =>
    intro jl ju h0 h1 _ hlo hhi
    have hj : ju = jl + 1 := by omega
    simp only [bisectGo]
    refine ⟨le_refl _, by omega, hlo, ?_⟩
    rcases hhi with h | h
    · exact Or.inl (by omega)
    · exact Or.inr (by rw [hj] at h; exact h)
  | succ d ih =>
    intro jl ju hd hlt hle hlo hhi
    simp only [bisectGo]
    by_cases hgap : 1 < ju - jl
    · simp only [hgap, if_true]
      have hmod := Nat.div_add_mod (ju + jl) 2
      by_cases hcmp : arr.getD ((ju + jl) / 2) 0 ≤ v
      · simp only [hcmp, if_true]
        exact (fun h => ⟨by omega, h.2.1, h.2.2⟩)
          (ih ((ju + jl) / 2) ju (by omega) (by omega) hle hcmp hhi)
      · simp only [hcmp, if_false]
        have := ih jl ((ju + jl) / 2) (by omega) (by omega) (by omega) hlo
          (Or.inr (by exact lt_of_not_le hcmp))
        exact ⟨this.1, by omega, this.2.2⟩
    · simp only [hgap, if_false]
      have hj : ju = jl + 1 := by omega
      refine ⟨le_refl _, by omega, hlo, ?_⟩
      rcases hhi with h | h
      · exact Or.inl (by omega)
      · exact Or.inr (by rw [hj] at h; exact h)

theorem bisect_spec (arr : List ℚ) (v : ℚ) :
    ∀ jl ju, jl < ju → ju ≤ arr.length →
    arr.getD jl 0 ≤ v → (ju = arr.length ∨ v < arr.getD ju 0) →
    jl ≤ bisect arr v jl ju ∧ bisect arr v jl ju < ju ∧
      arr.getD (bisect arr v jl ju) 0 ≤ v ∧
      (bisect arr v jl ju + 1 = arr.length ∨ v < arr.getD (bisect arr v jl ju + 1) 0) :=
  fun jl ju h1 h2 h3 h4 =>
    bisectGo_spec arr v (ju - jl) jl ju (le_refl _) h1 h2 h3 h4

/-- Claim C6: on a strictly increasing array, `locate` returns 0 for a query at
or below the first element, `len - 1` for a query at or above the last element,
and otherwise the unique index `j` with `array[j] ≤ query < array[j+1]`. -/
theorem locate_spec (arr : List ℚ) (v : ℚ) (hlen : 1 ≤ arr.length)
    (hs : ∀ j, j < arr.length → ∀ i, i < j → arr.getD i 0 < arr.getD j 0) :
    (v ≤ arr.getD 0 0 → locate arr v = 0) ∧
    (arr.getD (arr.length - 1) 0 ≤ v → locate arr v = arr.length - 1) ∧
    (arr.getD 0 0 < v → v < arr.getD (arr.length - 1) 0 →
      arr.getD (locate arr v) 0 ≤ v ∧ v < arr.getD (locate arr v + 1) 0 ∧
      locate arr v + 1 < arr.length ∧
      (∀ j, arr.getD j 0 ≤ v → v < arr.getD (j + 1) 0 → j + 1 < arr.length →
        j = locate arr v)) := by
  refine ⟨?_, ?_, ?_⟩
  · intro h
    simp only [locate, h, if_true]
  · intro h
    by_cases h0 : v ≤ arr.getD 0 0
    · have : arr.length - 1 = 0 := by
        by_contra hne
        have h01 : arr.getD 0 0 < arr.getD (arr.length - 1) 0 :=
          hs (arr.length - 1) (by omega) 0 (by omega)
        linarith
      simp only [locate, h0, if_true, this]
    · simp only [locate, h0, if_false, h, if_true]
  · intro hlo hhi
    have hne0 : ¬ v ≤ arr.getD 0 0 := not_le.mpr hlo
    have hneN : ¬ arr.getD (arr.length - 1) 0 ≤ v := not_le.mpr hhi
    have hn2 : 2 ≤ arr.length := by
      by_contra hc
      have h1 : arr.length - 1 = 0 := by omega
      rw [h1] at hhi
      linarith
    have hb := bisect_spec arr v 0 arr.length (by omega) (le_refl _)
      (le_of_lt hlo) (Or.inl rfl)
    have hres : locate arr v = bisect arr v 0 arr.length := by
      simp only [locate, hne0, if_false, hneN]
    rw [hres]
    set r := bisect arr v 0 arr.length with hr
    have hr1 : v < arr.getD (r + 1) 0 := by
      rcases hb.2.2.2 with h | h
      · exfalso
        have : r = arr.length - 1 := by omega
        rw [this] at hb
        exact hneN hb.2.2.1
      · exact h
    have hrlt : r + 1 < arr.length := by
      have := hb.2.1
      by_contra hc
      have : r = arr.length - 1 := by omega
      rw [this] at hb
      exact hneN hb.2.2.1
    refine ⟨hb.2.2.1, hr1, hrlt, ?_⟩
    intro j hj1 hj2 hj3
    by_contra hne
    rcases Nat.lt_or_ge j r with hlt | hge
    · have hjr : j + 1 ≤ r := hlt
      have : arr.getD (j + 1) 0 ≤ arr.getD r 0 := by
        rcases eq_or_lt_of_le hjr with he | hl
        · rw [he]
        · exact le_of_lt (hs r (by omega) (j + 1) hl)
      linarith [hb.2.2.1]
    · have hjr : r + 1 ≤ j := by omega
      have : arr.getD (r + 1) 0 ≤ arr.getD j 0 := by
        rcases eq_or_lt_of_le hjr with he | hl
        · rw [he]
        · exact le_of_lt (hs j (by omega) (r + 1) hl)
      linarith

/-- Witness for C6 at a concrete strictly increasing array. -/
theorem locate_spec_witness :
    (1 ≤ ([0, 1, 2] : List ℚ).length) ∧
    (((1 : ℚ)/2 ≤ ([0, 1, 2] : List ℚ).getD 0 0 → locate [0, 1, 2] (1/2) = 0) ∧
     (([0, 1, 2] : List ℚ).getD (([0, 1, 2] : List ℚ).length - 1) 0 ≤ (1 : ℚ)/2 →
        locate [0, 1, 2] (1/2) = ([0, 1, 2] : List ℚ).length - 1) ∧
     (([0, 1, 2] : List ℚ).getD 0 0 < (1 : ℚ)/2 →
      (1 : ℚ)/2 < ([0, 1, 2] : List ℚ).getD (([0, 1, 2] : List ℚ).length - 1) 0 →
      ([0, 1, 2] : List ℚ).getD (locate [0, 1, 2] (1/2)) 0 ≤ (1 : ℚ)/2 ∧
      (1 : ℚ)/2 < ([0, 1, 2] : List ℚ).getD (locate [0, 1, 2] (1/2) + 1) 0 ∧
      locate [0, 1, 2] (1/2) + 1 < ([0, 1, 2] : List ℚ).length ∧
      (∀ j, ([0, 1, 2] : List ℚ).getD j 0 ≤ (1 : ℚ)/2 →
        (1 : ℚ)/2 < ([0, 1, 2] : List ℚ).getD (j + 1) 0 →
        j + 1 < ([0, 1, 2] : List ℚ).length → j = locate [0, 1, 2] (1/2)))) :=
  ⟨by decide, locate_spec [0, 1, 2] (1/2) (by decide)
    (by decide)⟩

/-! ## Generic list access lemmas used throughout -/

theorem getD_set_self {α : Type} (l : List α) (i : ℕ) (x d : α) (h : i < l.length) :
    (l.set i x).getD i d = x := by
  simp [List.getD_eq_getElem?_getD, List.getElem?_set, h]

theorem getD_set_other {α : Type} (l : List α) (i j : ℕ) (x d : α) (h : i ≠ j) :
    (l.set i x).getD j d = l.getD j d := by
  simp [List.getD_eq_getElem?_getD, List.getElem?_set, h]

theorem set_getD_cancel {α : Type} (l : List α) (i : ℕ) (d : α) :
    l.set i (l.getD i d) = l := by
  apply List.ext_getElem?
  intro k
  by_cases hk : k = i
  · subst hk
    by_cases hlt : k < l.length
    · simp [List.getElem?_set, hlt, List.getD_eq_getElem?_getD, List.getElem?_eq_getElem hlt]
    · simp [List.getElem?_set, List.getElem?_eq_none (by omega : l.length ≤ k)]
      omega
  · simp [List.getElem?_set, (Ne.symm hk : i ≠ k)]

/-! ## `growup` and `growdown` (climate.py lines 1063-1087)

The zone map `nstr` is a NumPy integer array; both functions mutate it in
place and return it.  `nlv` is the 1-based convective-zone number; the
`-1` in the index computation is the source's Fortran-to-Python shift. -/

/-- The function `growup` (lines 1063-1073): `n = 2+3*(nlv-1)-1`,
`nstr[n] -= 1*ngrow`. -/
def growup (nlv : ℕ) (nstr : List ℤ) (ngrow : ℤ) : List ℤ :=
  let n := 2 + 3 * (nlv - 1) - 1
  nstr.set n (nstr.getD n 0 - 1 * ngrow)

/-- The function `growdown` (lines 1075-1087): `n = 3+3*(nlv-1)-1`,
`nstr[n] += 1*ngrow`, `nstr[n+1] += 1*ngrow`. -/
def growdown (nlv : ℕ) (nstr : List ℤ) (ngrow : ℤ) : List ℤ :=
  let n := 3 + 3 * (nlv - 1) - 1
  let nstr1 := nstr.set n (nstr.getD n 0 + 1 * ngrow)
  nstr1.set (n + 1) (nstr1.getD (n + 1) 0 + 1 * ngrow)

/-- Claim C4, counterexample: `growdown` followed by `growup` on the same zone
with the same step does not restore the zone map.  Here `nstr = [0,3,5,7,8,9]`
describes two convective zones of a 10-level atmosphere; zone 1 and step 1 keep
every boundary inside `[0,9]` and the triples non-decreasing, yet the
composition changes entries 1, 2 and 3. -/
theorem growdown_growup_not_inverse :
    growdown 1 [0, 3, 5, 7, 8, 9] 1 = [0, 3, 6, 8, 8, 9] ∧
    growup 1 (growdown 1 [0, 3, 5, 7, 8, 9] 1) 1 = [0, 2, 6, 8, 8, 9] ∧
    growup 1 (growdown 1 [0, 3, 5, 7, 8, 9] 1) 1 ≠ [0, 3, 5, 7, 8, 9] := by
  refine ⟨by decide, by decide, by decide⟩

/-- Pointwise extensionality for lists via `getD`. -/
theorem ext_of_getD {α : Type} (l1 l2 : List α) (d : α) (hl : l1.length = l2.length)
    (he : ∀ k, k < l1.length → l1.getD k d = l2.getD k d) : l1 = l2 := by
  refine List.ext_getElem hl (fun i h1 h2 => ?_)
  rw [← List.getD_eq_getElem l1 d h1, ← List.getD_eq_getElem l2 d h2]
  exact he i h1

theorem growdown_length (nlv : ℕ) (nstr : List ℤ) (ngrow : ℤ) :
    (growdown nlv nstr ngrow).length = nstr.length := by
  simp [growdown]

theorem growup_length (nlv : ℕ) (nstr : List ℤ) (ngrow : ℤ) :
    (growup nlv nstr ngrow).length = nstr.length := by
  simp [growup]

/-- Entrywise action of `growdown`: it adds `ngrow` to entries `3·nlv - 1`
and `3·nlv` and leaves the rest alone. -/
theorem growdown_getD (nlv : ℕ) (nstr : List ℤ) (ngrow : ℤ)
    (hz : 1 ≤ nlv) (hlen : 3 * nlv < nstr.length) (k : ℕ) :
    (growdown nlv nstr ngrow).getD k 0 =
      nstr.getD k 0 + (if k = 3 * nlv - 1 ∨ k = 3 * nlv then ngrow else 0) := by
  have hidx : 3 + 3 * (nlv - 1) - 1 = 3 * nlv - 1 := by omega
  simp only [growdown, hidx]
  by_cases h2 : k = 3 * nlv - 1 + 1
  · subst h2
    rw [getD_set_self _ _ _ _ (by simp [List.length_set]; omega)]
    rw [getD_set_other _ _ _ _ _ (by omega)]
    rw [if_pos (Or.inr (by omega))]
    ring
  · rw [getD_set_other _ _ _ _ _ (fun h => h2 h.symm)]
    by_cases h1 : k = 3 * nlv - 1
    · subst h1
      rw [getD_set_self _ _ _ _ (by omega)]
      rw [if_pos (Or.inl rfl)]
      ring
    · rw [getD_set_other _ _ _ _ _ (fun h => h1 h.symm)]
      rw [if_neg (by omega : ¬ (k = 3 * nlv - 1 ∨ k = 3 * nlv))]
      ring

/-- Entrywise action of `growup`: it subtracts `ngrow` from entry `3·nlv - 2`
and leaves the rest alone. -/
theorem growup_getD (nlv : ℕ) (nstr : List ℤ) (ngrow : ℤ)
    (hz : 1 ≤ nlv) (hlen : 3 * nlv < nstr.length) (k : ℕ) :
    (growup nlv nstr ngrow).getD k 0 =
      nstr.getD k 0 - (if k = 3 * nlv - 2 then ngrow else 0) := by
  have hidx : 2 + 3 * (nlv - 1) - 1 = 3 * nlv - 2 := by omega
  simp only [growup, hidx]
  by_cases h1 : k = 3 * nlv - 2
  · subst h1
    rw [getD_set_self _ _ _ _ (by omega)]
    rw [if_pos rfl]
    ring
  · rw [getD_set_other _ _ _ _ _ (fun h => h1 h.symm)]
    rw [if_neg h1]
    ring

/-- Claim C4, amended: `growup` and `growdown` act on different entries of the
zone map, so their composition is not the identity.  Applying
`growdown z n` and then `growup z n` subtracts `n` from entry `3z-2` (the
zone's convective top) and adds `n` to entries `3z-1` and `3z` (the zone's
convective bottom and the next zone's top); the map is restored exactly when
`n = 0`, and the true inverse of `growdown z n` is `growdown z (-n)`. -/
theorem growdown_growup_characterisation (nlv : ℕ) (nstr : List ℤ) (ngrow : ℤ)
    (hz : 1 ≤ nlv) (hlen : 3 * nlv < nstr.length) :
    (∀ k, k < nstr.length →
      (growup nlv (growdown nlv nstr ngrow) ngrow).getD k 0 =
        nstr.getD k 0 + (if k = 3 * nlv - 2 then -ngrow
          else if k = 3 * nlv - 1 ∨ k = 3 * nlv then ngrow else 0)) ∧
    (growdown nlv (growdown nlv nstr ngrow) (-ngrow) = nstr) := by
  have hlen2 : 3 * nlv < (growdown nlv nstr ngrow).length := by
    rw [growdown_length]; exact hlen
  constructor
  · intro k hk
    rw [growup_getD nlv _ ngrow hz hlen2 k, growdown_getD nlv nstr ngrow hz hlen k]
    by_cases h1 : k = 3 * nlv - 2
    · rw [if_pos h1, if_pos h1, if_neg (by omega : ¬ (k = 3 * nlv - 1 ∨ k = 3 * nlv))]
      ring
    · rw [if_neg h1, if_neg h1]
      by_cases h2 : k = 3 * nlv - 1 ∨ k = 3 * nlv
      · rw [if_pos h2]; ring
      · rw [if_neg h2]; ring
  · refine ext_of_getD _ _ 0 (by rw [growdown_length, growdown_length]) ?_
    intro k hk
    rw [growdown_getD nlv _ (-ngrow) hz hlen2 k, growdown_getD nlv nstr ngrow hz hlen k]
    by_cases h2 : k = 3 * nlv - 1 ∨ k = 3 * nlv
    · rw [if_pos h2, if_pos h2]; ring
    · rw [if_neg h2, if_neg h2]; ring

/-- Witness for the amended C4 theorem at a concrete zone map. -/
theorem growdown_growup_characterisation_witness :
    ((1 : ℕ) ≤ 1 ∧ 3 * 1 < ([0, 3, 5, 7, 8, 9] : List ℤ).length) ∧
    (growdown 1 (growdown 1 [0, 3, 5, 7, 8, 9] 2) (-2) = [0, 3, 5, 7, 8, 9]) :=
  ⟨⟨by decide, by decide⟩,
    (growdown_growup_characterisation 1 [0, 3, 5, 7, 8, 9] 2 (by decide) (by decide)).2⟩

/-! ## `check_convergence` (climate.py lines 1011-1061) -/

/-- Python `abs` on rationals (kept kernel-reducible). -/
def absQ (x : ℚ) : ℚ := if x < 0 then -x else x

/-- Python two-argument `max` (returns the first argument on ties). -/
def pyMax (a b : ℚ) : ℚ := if a < b then b else a

/-- Running maximum starting at 0, mirroring the source pattern
`test = 0.0; for ...: if tmp > test: test = tmp`. -/
def runMax (l : List ℚ) : ℚ :=
  l.foldl (fun t x => if t < x then x else t) 0

/-- The residual test value of `check_convergence` (lines 1018-1021):
the maximum of `|f_vec[i]|` over `i < n_total`. -/
def maxAbsFvec (f_vec : List ℚ) (n_total : ℕ) : ℚ :=
  runMax ((List.range n_total).map (fun i => absQ (f_vec.getD i 0)))

/-- The gradient-stationarity test value (lines 1029-1035):
the maximum of `|g[i]| * dflux[i] / max(f, 0.5*n_total)` over `i < n_total`.
Note the source does not take the absolute value of `dflux[i]`. -/
def gradStat (g dflux : List ℚ) (n_total : ℕ) (f : ℚ) : ℚ :=
  runMax ((List.range n_total).map
    (fun i => absQ (g.getD i 0) * dflux.getD i 0 / pyMax f ((1/2) * (n_total : ℚ))))

/-- The relative-temperature-change test value (lines 1046-1051):
the maximum of `|temp[i] - temp_old[i]| / temp_old[i]` over `i < n_total`. -/
def maxRelDT (temp temp_old : List ℚ) (n_total : ℕ) : ℚ :=
  runMax ((List.range n_total).map
    (fun i => absQ (temp.getD i 0 - temp_old.getD i 0) / temp_old.getD i 0))

/-- The function `check_convergence` (lines 1011-1061), returning
`(flag_converge, check)`.  On the `check == True` path the source sets
`flag_converge = 2` and returns unconditionally; the `tolmin` test decides only
the returned `check` flag. -/
def check_convergence (f_vec : List ℚ) (n_total : ℕ) (tolf : ℚ) (check : Bool)
    (f : ℚ) (dflux : List ℚ) (tolmin : ℚ) (temp temp_old : List ℚ) (g : List ℚ)
    (tolx : ℚ) : ℕ × Bool :=
  if maxAbsFvec f_vec n_total < tolf then (2, false)
  else if check then (2, decide (gradStat g dflux n_total f < tolmin))
  else if maxRelDT temp temp_old n_total < tolx then (2, check)
  else (1, check)

/-- Claim C2, counterexample: entering the convergence check on the small-step
path (`check = True`) with the residual test failing, the gradient criterion
failing, and the temperature-change criterion failing, the source still
reports convergence (`flag_converge = 2`) instead of continuing the outer
loop.  Concrete input: one active level, `f_vec = [1]`, `g = [1]`,
`dflux = [1]`, `f = 1`, `temp = [200]`, `temp_old = [100]`, with the source
tolerances `tolf = tolx = 5e-3`, `tolmin = 1e-5`. -/
theorem check_convergence_smallstep_counterexample :
    ¬ (maxAbsFvec [1] 1 < 1/200) ∧
    ¬ (gradStat [1] [1] 1 1 < 1/100000) ∧
    ¬ (maxRelDT [200] [100] 1 < 1/200) ∧
    check_convergence [1] 1 (1/200) true 1 [1] (1/100000) [200] [100] [1] (1/200)
      = (2, false) := by
  refine ⟨by with_unfolding_all decide, by with_unfolding_all decide,
    by with_unfolding_all decide, by with_unfolding_all decide⟩

/-- Claim C2, amended: when the convergence check is entered via the
small-step path (`check = True`) and the residual test fails, the solver
always reports convergence (`flag_converge = 2`); the gradient-stationarity
criterion does not decide convergence but only the returned spurious-
convergence flag `check`, which is `True` exactly when the criterion value is
below `tolmin`.  The temperature-change test is never reached on this path. -/
theorem check_convergence_smallstep_amended (f_vec : List ℚ) (n_total : ℕ)
    (tolf f : ℚ) (dflux : List ℚ) (tolmin : ℚ) (temp temp_old : List ℚ)
    (g : List ℚ) (tolx : ℚ)
    (hres : ¬ (maxAbsFvec f_vec n_total < tolf)) :
    check_convergence f_vec n_total tolf true f dflux tolmin temp temp_old g tolx
      = (2, decide (gradStat g dflux n_total f < tolmin)) := by
  simp only [check_convergence, hres, if_false, if_true]

/-- Witness for the amended C2 theorem at the counterexample input. -/
theorem check_convergence_smallstep_amended_witness :
    ¬ (maxAbsFvec [1] 1 < 1/200) ∧
    check_convergence [1] 1 (1/200) true 1 [1] (1/100000) [200] [100] [1] (1/200)
      = (2, decide (gradStat [1] [1] 1 1 < 1/100000)) :=
  ⟨by with_unfolding_all decide,
    check_convergence_smallstep_amended [1] 1 (1/200) 1 [1] (1/100000)
    [200] [100] [1] (1/200) (by with_unfolding_all decide)⟩

/-! ## `did_grad_cp` (climate.py lines 13-92)

The source takes `(t, p)`, forms `temp_log = log10(t)` and `pres_log = log10(p)`
(lines 43-44) and from then on works only with the log values against the
log-space tables.  Since `log10` is strictly monotonic, the model takes the
log values `temp_log`, `pres_log` directly; the tables `t_table` (53 entries)
and `p_table` (26 entries) already store log-space nodes.  The final result
`cp_x = 10**cp_x` (line 89) is not representable over ℚ; the model returns the
exponent, which is all any claim needs. -/

/-- The edge handling and interpolation-factor computation shared by the
pressure axis (lines 49-68, `edge = 25`) and the temperature axis
(lines 58-71, `edge = 52`): a bracketing position of 0 or `edge` forces the
factor to 0 or 1 (with the position clamped to `edge - 1` at the top);
otherwise the factor is `(-table[pos]+q)/(table[pos+1]-table[pos])` exactly as
in the source. -/
def edgeFactor (edge : ℕ) (table : List ℚ) (q : ℚ) : ℕ × ℚ :=
  let pos := locate table q
  if pos = 0 then (0, 0)
  else if pos = edge then (edge - 1, 1)
  else (pos, (-(table.getD pos 0) + q) / (table.getD (pos + 1) 0 - table.getD pos 0))

/-- Pressure-axis position and blend factor `(pos_p, factkp)` of `did_grad_cp`. -/
def factorP (p_table : List ℚ) (pres_log : ℚ) : ℕ × ℚ :=
  edgeFactor 25 p_table pres_log

/-- Temperature-axis position and blend factor `(pos_t, factkt)` of `did_grad_cp`. -/
def factorT (t_table : List ℚ) (temp_log : ℚ) : ℕ × ℚ :=
  edgeFactor 52 t_table temp_log

/-- The function `did_grad_cp` (lines 43-92) after the `log10` preprocessing,
returning `(grad_x, log10 cp_x)`. -/
def did_grad_cp_core (temp_log pres_log : ℚ) (t_table p_table : List ℚ)
    (grad cp : ℕ → ℕ → ℚ) : ℚ × ℚ :=
  let tf := factorT t_table temp_log
  let pf := factorP p_table pres_log
  let pos_t := tf.1
  let factkt := tf.2
  let pos_p := pf.1
  let factkp := pf.2
  let gp1 := grad pos_t pos_p
  let gp2 := grad (pos_t + 1) pos_p
  let gp3 := grad (pos_t + 1) (pos_p + 1)
  let gp4 := grad pos_t (pos_p + 1)
  let cp1 := cp pos_t pos_p
  let cp2 := cp (pos_t + 1) pos_p
  let cp3 := cp (pos_t + 1) (pos_p + 1)
  let cp4 := cp pos_t (pos_p + 1)
  ((1 - factkt) * (1 - factkp) * gp1 + factkt * (1 - factkp) * gp2 +
      factkt * factkp * gp3 + (1 - factkt) * factkp * gp4,
   (1 - factkt) * (1 - factkp) * cp1 + factkt * (1 - factkp) * cp2 +
      factkt * factkp * cp3 + (1 - factkt) * factkp * cp4)

/-- A concrete strictly increasing 26-entry log-pressure test table. -/
def pTable26 : List ℚ :=
  [0, 1, 2, 3, 4, 5, 6, 7, 8, 9, 10, 11, 12, 13, 14, 15, 16, 17, 18, 19, 20,
   21, 22, 23, 24, 25]

/-- A concrete strictly increasing 53-entry log-temperature test table. -/
def tTable53 : List ℚ :=
  [0, 1, 2, 3, 4, 5, 6, 7, 8, 9, 10, 11, 12, 13, 14, 15, 16, 17, 18, 19, 20,
   21, 22, 23, 24, 25, 26, 27, 28, 29, 30, 31, 32, 33, 34, 35, 36, 37, 38, 39,
   40, 41, 42, 43, 44, 45, 46, 47, 48, 49, 50, 51, 52]

/-- Claim C7, counterexample: a pressure query strictly between the first and
last table entries, lying in the first table interval, gets its blend factor
forced to 0 even though its fractional position in the bracketing interval
`[p_table[0], p_table[1])` is 1/2: the code forces the factor to 0 throughout
the whole first interval, not only at or beyond the table edge. -/
theorem did_grad_cp_first_interval_counterexample :
    pTable26.getD 0 0 < 1/2 ∧ (1/2 : ℚ) < pTable26.getD 25 0 ∧
    pTable26.getD 0 0 ≤ 1/2 ∧ (1/2 : ℚ) < pTable26.getD 1 0 ∧
    (factorP pTable26 (1/2)).2 = 0 ∧
    ((1:ℚ)/2 - pTable26.getD 0 0) / (pTable26.getD 1 0 - pTable26.getD 0 0) = 1/2 ∧
    (factorP pTable26 (1/2)).2 ≠
      ((1:ℚ)/2 - pTable26.getD 0 0) / (pTable26.getD 1 0 - pTable26.getD 0 0) := by
  refine ⟨by with_unfolding_all decide, by with_unfolding_all decide,
    by with_unfolding_all decide, by with_unfolding_all decide,
    by with_unfolding_all decide, by with_unfolding_all decide,
    by with_unfolding_all decide⟩

/-- Behaviour of `edgeFactor` on a strictly increasing table of length
`edge + 1`: the factor is forced to 0 for every query below the second node
(the whole first interval, not only the low edge), forced to 1 with position
`edge - 1` for queries at or above the last node, and equal to the fractional
position within the bracketing interval for all queries in between. -/
theorem edgeFactor_spec (edge : ℕ) (table : List ℚ) (q : ℚ)
    (hedge : 2 ≤ edge) (hlen : table.length = edge + 1)
    (hs : ∀ j, j < table.length → ∀ i, i < j → table.getD i 0 < table.getD j 0) :
    (q < table.getD 1 0 → edgeFactor edge table q = (0, 0)) ∧
    (table.getD edge 0 ≤ q → edgeFactor edge table q = (edge - 1, 1)) ∧
    (table.getD 1 0 ≤ q → q < table.getD edge 0 →
      1 ≤ (edgeFactor edge table q).1 ∧ (edgeFactor edge table q).1 + 1 ≤ edge ∧
      table.getD (edgeFactor edge table q).1 0 ≤ q ∧
      q < table.getD ((edgeFactor edge table q).1 + 1) 0 ∧
      (edgeFactor edge table q).2 =
        (-(table.getD (edgeFactor edge table q).1 0) + q) /
          (table.getD ((edgeFactor edge table q).1 + 1) 0 -
            table.getD (edgeFactor edge table q).1 0)) := by
  have hlen1 : 1 ≤ table.length := by omega
  have hloc := locate_spec table q hlen1 hs
  refine ⟨?_, ?_, ?_⟩
  · intro hq
    have hzero : locate table q = 0 := by
      by_cases hq0 : q ≤ table.getD 0 0
      · exact hloc.1 hq0
      · have h0 : table.getD 0 0 < q := lt_of_not_le hq0
        have hlast : q < table.getD (table.length - 1) 0 := by
          have : table.getD 1 0 ≤ table.getD (table.length - 1) 0 := by
            rcases Nat.lt_or_ge 1 (table.length - 1) with h | h
            · exact le_of_lt (hs (table.length - 1) (by omega) 1 h)
            · have : table.length - 1 = 1 := by omega
              rw [this]
          linarith
        have := (hloc.2.2 h0 hlast).2.2.2 0 (le_of_lt h0) (by simpa using hq) (by omega)
        exact this.symm
    simp [edgeFactor, hzero]
  · intro hq
    have hlast : locate table q = edge := by
      have := hloc.2.1 (by rw [hlen]; simpa using hq)
      rw [hlen] at this
      simpa using this
    have hne : locate table q ≠ 0 := by omega
    simp [edgeFactor, hlast, (by omega : ¬ edge = 0)]
    intro h
    exact absurd h (by omega)
  · intro hq1 hqe
    have h0 : table.getD 0 0 < q := by
      have : table.getD 0 0 < table.getD 1 0 := hs 1 (by omega) 0 (by omega)
      linarith
    have hlast : q < table.getD (table.length - 1) 0 := by
      rw [hlen]
      simpa using hqe
    have hmain := hloc.2.2 h0 hlast
    set r := locate table q with hrdef
    have hr1 : 1 ≤ r := by
      by_contra hc
      have hr0 : r = 0 := by omega
      have := hmain.2.1
      rw [hr0] at this
      linarith
    have hre : r + 1 ≤ edge := by
      have := hmain.2.2.1
      omega
    have hrne : r ≠ edge := by omega
    have hres : edgeFactor edge table q =
        (r, (-(table.getD r 0) + q) /
          (table.getD (r + 1) 0 - table.getD r 0)) := by
      simp only [edgeFactor, ← hrdef, if_neg (by omega : ¬ r = 0), if_neg hrne]
    rw [hres]
    exact ⟨hr1, hre, hmain.1, hmain.2.1, rfl⟩

/-- Claim C7, amended: the blend factors of `did_grad_cp` equal the fractional
position `(query - table[pos]) / (table[pos+1] - table[pos])` of the query in
its bracketing interval whenever the query lies between the second and the
last table node; the factor is forced to 0 for all queries below the second
node (the entire first interval as well as at or below the low edge, not only
at the edge), and forced to 1 at or above the last node. -/
theorem did_grad_cp_factors_amended (t_table p_table : List ℚ)
    (temp_log pres_log : ℚ)
    (hlt : t_table.length = 53) (hlp : p_table.length = 26)
    (hst : ∀ j, j < t_table.length → ∀ i, i < j →
      t_table.getD i 0 < t_table.getD j 0)
    (hsp : ∀ j, j < p_table.length → ∀ i, i < j →
      p_table.getD i 0 < p_table.getD j 0) :
    ((temp_log < t_table.getD 1 0 → factorT t_table temp_log = (0, 0)) ∧
     (t_table.getD 52 0 ≤ temp_log → factorT t_table temp_log = (51, 1)) ∧
     (t_table.getD 1 0 ≤ temp_log → temp_log < t_table.getD 52 0 →
       (factorT t_table temp_log).2 =
         (-(t_table.getD (factorT t_table temp_log).1 0) + temp_log) /
           (t_table.getD ((factorT t_table temp_log).1 + 1) 0 -
             t_table.getD (factorT t_table temp_log).1 0) ∧
       t_table.getD (factorT t_table temp_log).1 0 ≤ temp_log ∧
       temp_log < t_table.getD ((factorT t_table temp_log).1 + 1) 0)) ∧
    ((pres_log < p_table.getD 1 0 → factorP p_table pres_log = (0, 0)) ∧
     (p_table.getD 25 0 ≤ pres_log → factorP p_table pres_log = (24, 1)) ∧
     (p_table.getD 1 0 ≤ pres_log → pres_log < p_table.getD 25 0 →
       (factorP p_table pres_log).2 =
         (-(p_table.getD (factorP p_table pres_log).1 0) + pres_log) /
           (p_table.getD ((factorP p_table pres_log).1 + 1) 0 -
             p_table.getD (factorP p_table pres_log).1 0) ∧
       p_table.getD (factorP p_table pres_log).1 0 ≤ pres_log ∧
       pres_log < p_table.getD ((factorP p_table pres_log).1 + 1) 0)) := by
  have ht := edgeFactor_spec 52 t_table temp_log (by omega) (by omega) hst
  have hp := edgeFactor_spec 25 p_table pres_log (by omega) (by omega) hsp
  constructor
  · refine ⟨ht.1, ht.2.1, fun h1 h2 => ?_⟩
    have := ht.2.2 h1 h2
    exact ⟨this.2.2.2.2, this.2.2.1, this.2.2.2.1⟩
  · refine ⟨hp.1, hp.2.1, fun h1 h2 => ?_⟩
    have := hp.2.2 h1 h2
    exact ⟨this.2.2.2.2, this.2.2.1, this.2.2.2.1⟩

/-- Witness for the amended C7 theorem at concrete tables and queries. -/
theorem did_grad_cp_factors_amended_witness :
    (tTable53.length = 53 ∧ pTable26.length = 26) ∧
    factorT tTable53 (5/2) = (2, 1/2) ∧ factorP pTable26 (1/2) = (0, 0) := by
  have h := did_grad_cp_factors_amended tTable53 pTable26 (5/2) (1/2)
    (by decide) (by decide) (by decide) (by decide)
  refine ⟨⟨by decide, by decide⟩, ?_, h.2.1 (by with_unfolding_all decide)⟩
  have h3 := h.1.2.2 (by with_unfolding_all decide) (by with_unfolding_all decide)
  have hpos : (factorT tTable53 (5/2)).1 = 2 := by with_unfolding_all decide
  have : (factorT tTable53 (5/2)).2 = 1/2 := by
    rw [h3.1, hpos]
    with_unfolding_all decide
  rw [Prod.ext_iff]
  exact ⟨hpos, this⟩

/-! ## `lu_decomp` and `lu_backsubs` (climate.py lines 181-334)

The matrix `a` has storage size `ntot × ntot` with `ntot ≥ n`; only the active
`n × n` submatrix is read or written, so the matrix is embedded as a total
function `ℕ → ℕ → ℚ` updated pointwise.  The row-scaling scratch vector `vv`
is allocated with the fixed size `NMAX = 100` (line 233-236), so accesses to
it are modelled with an explicit bounds check; the pivot index array `indx` is
allocated with dtype `int8` (line 237), so stored pivot values are wrapped to
`[-128, 127]` by `int8cast`.  The source raises `ValueError` ("Array is
singular") at line 245; a scan that ends without assigning `imax` would raise
Python's unbound-local error (it cannot happen when all `vv` entries are
positive, which is proved below).  The accumulated determinant sign `d`
(lines 235, 272) is never returned or read and is omitted. -/

inductive LUErr
  | singular
  | oob
  | unboundLocal
deriving DecidableEq

/-- The pivot threshold `TINY = 1e-20` (line 232). -/
def TINY : ℚ := 1 / 10 ^ 20

/-- The scratch allocation size `NMAX = 100` (line 233). -/
def NMAX : ℕ := 100

/-- NumPy `int8` cast: wrap an integer value into `[-128, 127]`. -/
def int8cast (k : ℕ) : ℤ := ((k : ℤ) + 128) % 256 - 128

/-- Pointwise matrix update `a[i, j] = x`. -/
def upd (a : ℕ → ℕ → ℚ) (i j : ℕ) (x : ℚ) : ℕ → ℕ → ℚ :=
  fun r c => if r = i ∧ c = j then x else a r c

/-- The implicit scaling quantity of row `i` (lines 240-243):
`aamax = max over j < n of |a[i, j]|`. -/
def rowMax (a : ℕ → ℕ → ℚ) (n i : ℕ) : ℚ :=
  runMax ((List.range n).map (fun j => absQ (a i j)))

/-- The first loop of `lu_decomp` (lines 239-246): check each row for
singularity and record the scale factor `vv[i] = 1/aamax`, with the bounds
check on the size-`NMAX` scratch vector made explicit. -/
def phase1go (a : ℕ → ℕ → ℚ) (n : ℕ) : List ℕ → List ℚ → Except LUErr (List ℚ)
  | [], vv => .ok vv
  | i :: rest, vv =>
    let aamax := rowMax a n i
    if aamax = 0 then .error .singular
    else if i < NMAX then phase1go a n rest (vv ++ [1 / aamax])
    else .error .oob

/-- Rows `0..n-1` of the scaling loop. -/
def phase1 (a : ℕ → ℕ → ℚ) (n : ℕ) : Except LUErr (List ℚ) :=
  phase1go a n (List.range n) []

/-- The Crout update of the above-diagonal part of column `j`
(lines 249-253), processing rows `i < j` in increasing order; each row uses
the entries already updated by the previous rows of this loop. -/
def croutCol (a : ℕ → ℕ → ℚ) (j : ℕ) : List ℕ → (ℕ → ℕ → ℚ)
  | [] => a
  | i :: rest =>
    let s := (List.range i).foldl (fun s k => s - a i k * a k j) (a i j)
    croutCol (upd a i j s) j rest

/-- The pivot scan over rows `j..n-1` (lines 255-265): update each entry
`a[i, j]`, compute `dum = vv[i]*|sum|` and keep the row with the largest
`dum` (the test is `dum >= aamax`, so later ties win). -/
def pivotScan (vv : List ℚ) (j : ℕ) :
    List ℕ → (ℕ → ℕ → ℚ) → ℚ → Option ℕ → ((ℕ → ℕ → ℚ) × ℚ × Option ℕ)
  | [], a, aamax, imax => (a, aamax, imax)
  | i :: rest, a, aamax, imax =>
    let s := (List.range j).foldl (fun s k => s - a i k * a k j) (a i j)
    let a2 := upd a i j s
    let dum := vv.getD i 0 * absQ s
    if aamax ≤ dum then pivotScan vv j rest a2 dum (some i)
    else pivotScan vv j rest a2 aamax imax

/-- The row interchange (lines 267-271): swap rows `j` and `imax` over the
first `n` columns. -/
def swapRows (a : ℕ → ℕ → ℚ) (n j imax : ℕ) : ℕ → ℕ → ℚ :=
  fun r c =>
    if c < n then
      if r = imax then a j c else if r = j then a imax c else a r c
    else a r c

/-- The final division of column `j` below the diagonal (lines 279-282):
`dum = 1/a[j,j]`, then `a[i,j] *= dum` for `j < i < n`. -/
def divCol (a : ℕ → ℕ → ℚ) (n j : ℕ) : ℕ → ℕ → ℚ :=
  fun r c => if c = j ∧ j + 1 ≤ r ∧ r < n then a r c * (1 / a j j) else a r c

/-- State of the elimination: the matrix, the scale vector, the stored
(int8-cast) pivot indices, and the actually chosen pivot rows.  The source
stores only the cast values; the chosen rows are carried alongside purely so
that theorems can compare the two. -/
structure LUState where
  a : ℕ → ℕ → ℚ
  vv : List ℚ
  indxStored : List ℤ
  indxChosen : List ℕ

/-- One column step `j` of the elimination (lines 248-282): Crout update,
pivot scan, optional row swap with `vv[imax] = vv[j]`, pivot record,
zero-pivot replacement by `TINY` (line 277-278, no error raised), and the
below-diagonal division (skipped for the last column). -/
def luStep (n j : ℕ) (st : LUState) : Except LUErr LUState :=
  let a1 := croutCol st.a j (List.range j)
  let scan := pivotScan st.vv j (List.range' j (n - j)) a1 0 none
  match scan.2.2 with
  | none => .error .unboundLocal
  | some imax =>
    let a2 := scan.1
    let a3 := if j ≠ imax then swapRows a2 n j imax else a2
    let vv2 := if j ≠ imax then st.vv.set imax (st.vv.getD j 0) else st.vv
    let a4 := if a3 j j = 0 then upd a3 j j TINY else a3
    let a5 := if j ≠ n - 1 then divCol a4 n j else a4
    .ok ⟨a5, vv2, st.indxStored ++ [int8cast imax], st.indxChosen ++ [imax]⟩

/-- The outer elimination loop over columns `0..n-1` (line 248). -/
def luLoop (n : ℕ) : List ℕ → LUState → Except LUErr LUState
  | [], st => .ok st
  | j :: rest, st =>
    match luStep n j st with
    | .error e => .error e
    | .ok st2 => luLoop n rest st2

/-- The function `lu_decomp` (lines 212-284), returning the factored matrix,
the stored pivot index array and the chosen pivot rows. -/
def lu_decomp (a : ℕ → ℕ → ℚ) (n : ℕ) :
    Except LUErr ((ℕ → ℕ → ℚ) × List ℤ × List ℕ) :=
  match phase1 a n with
  | .error e => .error e
  | .ok vv =>
    match luLoop n (List.range n) ⟨a, vv, [], []⟩ with
    | .error e => .error e
    | .ok st => .ok (st.a, st.indxStored, st.indxChosen)

/-- The forward-substitution loop of `lu_backsubs` (lines 311-324).  The
right-hand side `b` has storage size `nlevel ≥ n` and is embedded as a total
function; a negative stored pivot index would address `b` end-relative, which
the model flags as an out-of-bounds access. -/
def backsubForward (a : ℕ → ℕ → ℚ) (indx : List ℤ) :
    List ℕ → (ℕ → ℚ) → Option ℕ → Except LUErr ((ℕ → ℚ) × Option ℕ)
  | [], b, ii => .ok (b, ii)
  | i :: rest, b, ii =>
    let ll := indx.getD i 0
    if ll < 0 then .error .oob
    else
      let s := b ll.toNat
      let b1 := fun r => if r = ll.toNat then b i else b r
      let s2 := match ii with
        | some iv => (List.range' iv (i - iv)).foldl (fun s j => s - a i j * b1 j) s
        | none => s
      let ii2 := match ii with
        | some iv => some iv
        | none => if s2 ≠ 0 then some i else none
      let b2 := fun r => if r = i then s2 else b1 r
      backsubForward a indx rest b2 ii2

/-- The back-substitution loop of `lu_backsubs` (lines 326-331), processing
rows `n-1` down to `0`. -/
def backsubBackward (a : ℕ → ℕ → ℚ) (n : ℕ) : List ℕ → (ℕ → ℚ) → (ℕ → ℚ)
  | [], b => b
  | i :: rest, b =>
    let s := (List.range' (i + 1) (n - (i + 1))).foldl
      (fun s j => s - a i j * b j) (b i)
    backsubBackward a n rest (fun r => if r = i then s / a i i else b r)

/-- The function `lu_backsubs` (lines 286-334). -/
def lu_backsubs (a : ℕ → ℕ → ℚ) (n : ℕ) (indx : List ℤ) (b : ℕ → ℚ) :
    Except LUErr (ℕ → ℚ) :=
  match backsubForward a indx (List.range n) b none with
  | .error e => .error e
  | .ok br => .ok (backsubBackward a n (List.range n).reverse br.1)

/-! ### Facts about the running maximum and the row scaling -/

theorem runMaxF_le_left (t x : ℚ) : t ≤ if t < x then x else t := by
  by_cases h : t < x
  · rw [if_pos h]; exact le_of_lt h
  · rw [if_neg h]

theorem runMaxF_le_right (t x : ℚ) : x ≤ if t < x then x else t := by
  by_cases h : t < x
  · rw [if_pos h]
  · rw [if_neg h]; exact le_of_not_lt h

theorem foldl_runMax_init_le (l : List ℚ) :
    ∀ init : ℚ, init ≤ l.foldl (fun t x => if t < x then x else t) init := by
  induction l with
  | nil => intro init; exact le_refl _
  | cons hd tl ih =>
    intro init
    exact le_trans (runMaxF_le_left init hd) (ih _)

theorem le_foldl_runMax_of_mem (l : List ℚ) :
    ∀ (init x : ℚ), x ∈ l → x ≤ l.foldl (fun t x => if t < x then x else t) init := by
  induction l with
  | nil => intro _ x h; cases h
  | cons hd tl ih =>
    intro init x h
    rcases List.mem_cons.mp h with he | hm
    · subst he
      exact le_trans (runMaxF_le_right init x) (foldl_runMax_init_le tl _)
    · exact ih _ x hm

theorem runMax_nonneg (l : List ℚ) : 0 ≤ runMax l :=
  foldl_runMax_init_le l 0

theorem le_runMax_of_mem (l : List ℚ) (x : ℚ) (h : x ∈ l) : x ≤ runMax l :=
  le_foldl_runMax_of_mem l 0 x h

theorem runMax_of_all_zero (l : List ℚ) (h : ∀ x ∈ l, x = 0) : runMax l = 0 := by
  unfold runMax
  induction l with
  | nil => rfl
  | cons hd tl ih =>
    have hhd : hd = 0 := h hd (List.mem_cons_self hd tl)
    simp only [List.foldl_cons, hhd, lt_irrefl, if_false]
    exact ih (fun x hx => h x (List.mem_cons_of_mem hd hx))

theorem absQ_nonneg (x : ℚ) : 0 ≤ absQ x := by
  unfold absQ
  by_cases h : x < 0
  · rw [if_pos h]; linarith
  · rw [if_neg h]; exact le_of_not_lt h

theorem absQ_eq_zero_iff (x : ℚ) : absQ x = 0 ↔ x = 0 := by
  unfold absQ
  by_cases h : x < 0
  · rw [if_pos h]
    constructor
    · intro he; linarith
    · intro he; linarith
  · rw [if_neg h]

theorem rowMax_nonneg (a : ℕ → ℕ → ℚ) (n i : ℕ) : 0 ≤ rowMax a n i :=
  runMax_nonneg _

theorem rowMax_eq_zero_iff (a : ℕ → ℕ → ℚ) (n i : ℕ) :
    rowMax a n i = 0 ↔ ∀ j, j < n → a i j = 0 := by
  constructor
  · intro h j hj
    by_contra hne
    have hmem : absQ (a i j) ∈ (List.range n).map (fun j => absQ (a i j)) :=
      List.mem_map_of_mem _ (List.mem_range.mpr hj)
    have hle := le_runMax_of_mem _ _ hmem
    rw [rowMax] at h
    rw [h] at hle
    have : 0 < absQ (a i j) := by
      rcases lt_or_eq_of_le (absQ_nonneg (a i j)) with hlt | heq
      · exact hlt
      · exact absurd ((absQ_eq_zero_iff _).mp heq.symm) hne
    linarith
  · intro h
    apply runMax_of_all_zero
    intro x hx
    rcases List.mem_map.mp hx with ⟨j, hj, he⟩
    rw [← he, (absQ_eq_zero_iff _).mpr (h j (List.mem_range.mp hj))]

/-! ### The scaling phase -/

theorem phase1go_append (a : ℕ → ℕ → ℚ) (n : ℕ) (l1 l2 : List ℕ) :
    ∀ vv, phase1go a n (l1 ++ l2) vv =
      match phase1go a n l1 vv with
      | .ok vv2 => phase1go a n l2 vv2
      | .error e => .error e := by
  induction l1 with
  | nil => intro vv; rfl
  | cons hd tl ih =>
    intro vv
    simp only [List.cons_append, phase1go]
    by_cases h0 : rowMax a n hd = 0
    · simp [h0]
    · simp only [if_neg h0]
      by_cases hlt : hd < NMAX
      · simp only [if_pos hlt]
        exact ih _
      · simp only [if_neg hlt]

theorem phase1go_ok (a : ℕ → ℕ → ℚ) (n : ℕ) :
    ∀ (js : List ℕ) (vv : List ℚ), (∀ i ∈ js, i < NMAX) →
      (∀ i ∈ js, rowMax a n i ≠ 0) →
      phase1go a n js vv = .ok (vv ++ js.map (fun i => 1 / rowMax a n i)) := by
  intro js
  induction js with
  | nil => intro vv _ _; simp [phase1go]
  | cons hd tl ih =>
    intro vv hlt hnz
    have h0 : rowMax a n hd ≠ 0 := hnz hd (List.mem_cons_self hd tl)
    have h1 : hd < NMAX := hlt hd (List.mem_cons_self hd tl)
    simp only [phase1go, if_neg h0, if_pos h1]
    rw [ih _ (fun i hi => hlt i (List.mem_cons_of_mem hd hi))
      (fun i hi => hnz i (List.mem_cons_of_mem hd hi))]
    simp

theorem phase1go_singular (a : ℕ → ℕ → ℚ) (n : ℕ) :
    ∀ (js : List ℕ) (vv : List ℚ), (∀ i ∈ js, i < NMAX) →
      (∃ i ∈ js, rowMax a n i = 0) →
      phase1go a n js vv = .error .singular := by
  intro js
  induction js with
  | nil => intro vv _ h; simp at h
  | cons hd tl ih =>
    intro vv hlt hex
    by_cases h0 : rowMax a n hd = 0
    · simp only [phase1go, if_pos h0]
    · simp only [phase1go, if_neg h0,
        if_pos (hlt hd (List.mem_cons_self hd tl))]
      apply ih _ (fun i hi => hlt i (List.mem_cons_of_mem hd hi))
      rcases hex with ⟨i, hi, hz⟩
      rcases List.mem_cons.mp hi with he | hm
      · exact absurd (he ▸ hz) h0
      · exact ⟨i, hm, hz⟩

theorem phase1_ok (a : ℕ → ℕ → ℚ) (n : ℕ) (hn : n ≤ NMAX)
    (hnz : ∀ i, i < n → rowMax a n i ≠ 0) :
    phase1 a n = .ok ((List.range n).map (fun i => 1 / rowMax a n i)) := by
  unfold phase1
  rw [phase1go_ok a n (List.range n) []
    (fun i hi => by have := List.mem_range.mp hi; omega)
    (fun i hi => hnz i (List.mem_range.mp hi))]
  simp

theorem phase1_singular (a : ℕ → ℕ → ℚ) (n : ℕ) (hn : n ≤ NMAX)
    (hz : ∃ i, i < n ∧ rowMax a n i = 0) :
    phase1 a n = .error .singular := by
  unfold phase1
  apply phase1go_singular a n (List.range n) []
    (fun i hi => by have := List.mem_range.mp hi; omega)
  rcases hz with ⟨i, hi, h⟩
  exact ⟨i, List.mem_range.mpr hi, h⟩

/-! ### The pivot scan always selects a row in range -/

theorem pivotScan_mem (vv : List ℚ) (j : ℕ) :
    ∀ (l : List ℕ) (a : ℕ → ℕ → ℚ) (aamax : ℚ) (imax : Option ℕ) (v : ℕ),
      (pivotScan vv j l a aamax imax).2.2 = some v → v ∈ l ∨ imax = some v := by
  intro l
  induction l with
  | nil => intro a aamax imax v h; exact Or.inr h
  | cons hd tl ih =>
    intro a aamax imax v h
    simp only [pivotScan] at h
    by_cases hc : aamax ≤ vv.getD hd 0 *
        absQ ((List.range j).foldl (fun s k => s - a hd k * a k j) (a hd j))
    · rw [if_pos hc] at h
      rcases ih _ _ _ v h with hm | he
      · exact Or.inl (List.mem_cons_of_mem hd hm)
      · have heq : hd = v := Option.some_inj.mp he
        rw [← heq]
        exact Or.inl (List.mem_cons_self hd tl)
    · rw [if_neg hc] at h
      rcases ih _ _ _ v h with hm | he
      · exact Or.inl (List.mem_cons_of_mem hd hm)
      · exact Or.inr he

theorem pivotScan_some_of_some (vv : List ℚ) (j : ℕ) :
    ∀ (l : List ℕ) (a : ℕ → ℕ → ℚ) (aamax : ℚ) (w : ℕ),
      (pivotScan vv j l a aamax (some w)).2.2.isSome := by
  intro l
  induction l with
  | nil => intro a aamax w; simp [pivotScan]
  | cons hd tl ih =>
    intro a aamax w
    simp only [pivotScan]
    by_cases hc : aamax ≤ vv.getD hd 0 *
        absQ ((List.range j).foldl (fun s k => s - a hd k * a k j) (a hd j))
    · rw [if_pos hc]; exact ih _ _ hd
    · rw [if_neg hc]; exact ih _ _ w

theorem pivotScan_isSome (vv : List ℚ) (j hd : ℕ) (rest : List ℕ)
    (a : ℕ → ℕ → ℚ) (h0 : 0 ≤ vv.getD hd 0) :
    (pivotScan vv j (hd :: rest) a 0 none).2.2.isSome := by
  simp only [pivotScan]
  rw [if_pos (mul_nonneg h0 (absQ_nonneg _))]
  exact pivotScan_some_of_some vv j rest _ _ hd

/-! ### One elimination step and the elimination loop -/

theorem luStep_ok (n j : ℕ) (st : LUState) (hj : j < n)
    (hvlen : st.vv.length = n) (hvpos : ∀ q ∈ st.vv, 0 < q) :
    ∃ st2 imax, luStep n j st = .ok st2 ∧ j ≤ imax ∧ imax < n ∧
      st2.vv.length = n ∧ (∀ q ∈ st2.vv, 0 < q) ∧
      st2.indxStored = st.indxStored ++ [int8cast imax] ∧
      st2.indxChosen = st.indxChosen ++ [imax] := by
  have hrange : List.range' j (n - j) = j :: List.range' (j + 1) (n - j - 1) := by
    conv_lhs => rw [show n - j = (n - j - 1) + 1 by omega]
    rw [List.range'_succ]
  have hgetj : 0 ≤ st.vv.getD j 0 := by
    rw [List.getD_eq_getElem st.vv 0 (by omega)]
    exact le_of_lt (hvpos _ (List.getElem_mem _))
  have hsome : (pivotScan st.vv j (List.range' j (n - j))
      (croutCol st.a j (List.range j)) 0 none).2.2.isSome := by
    rw [hrange]
    exact pivotScan_isSome st.vv j j _ _ hgetj
  rcases Option.isSome_iff_exists.mp hsome with ⟨imax, himax⟩
  have hmem := pivotScan_mem st.vv j (List.range' j (n - j)) _ 0 none imax himax
  have hbound : j ≤ imax ∧ imax < n := by
    rcases hmem with hm | he
    · have := List.mem_range'_1.mp hm
      omega
    · cases he
  have hstep : ∃ a5, luStep n j st = .ok ⟨a5,
      if j ≠ imax then st.vv.set imax (st.vv.getD j 0) else st.vv,
      st.indxStored ++ [int8cast imax], st.indxChosen ++ [imax]⟩ :=
    ⟨_, by simp only [luStep, himax]; rfl⟩
  rcases hstep with ⟨a5, hstep⟩
  refine ⟨_, imax, hstep, hbound.1, hbound.2, ?_, ?_, rfl, rfl⟩
  · by_cases hswap : j ≠ imax
    · simp only [if_pos hswap, List.length_set, hvlen]
    · simp only [if_neg hswap, hvlen]
  · intro q hq
    by_cases hswap : j ≠ imax
    · simp only [if_pos hswap] at hq
      rcases List.mem_or_eq_of_mem_set hq with hm | he
      · exact hvpos q hm
      · rw [he, List.getD_eq_getElem st.vv 0 (by omega)]
        exact hvpos _ (List.getElem_mem _)
    · simp only [if_neg hswap] at hq
      exact hvpos q hq

theorem luLoop_ok (n : ℕ) :
    ∀ (js : List ℕ) (st : LUState), (∀ j ∈ js, j < n) →
      st.vv.length = n → (∀ q ∈ st.vv, 0 < q) →
      ∃ st2, luLoop n js st = .ok st2 ∧
        ∃ extra : List ℕ, (∀ e ∈ extra, e < n) ∧
          st2.indxChosen = st.indxChosen ++ extra ∧
          st2.indxStored = st.indxStored ++ extra.map int8cast := by
  intro js
  induction js with
  | nil =>
    intro st _ _ _
    exact ⟨st, rfl, [], by simp, by simp, by simp⟩
  | cons hd tl ih =>
    intro st hjs hvlen hvpos
    rcases luStep_ok n hd st (hjs hd (List.mem_cons_self hd tl)) hvlen hvpos with
      ⟨st2, imax, hstep, hle, hlt, hvlen2, hvpos2, hstored, hchosen⟩
    rcases ih st2 (fun j hj => hjs j (List.mem_cons_of_mem hd hj)) hvlen2 hvpos2 with
      ⟨st3, hloop, extra, hext, hch3, hst3⟩
    refine ⟨st3, ?_, imax :: extra, ?_, ?_, ?_⟩
    · simp only [luLoop, hstep, hloop]
    · intro e he
      rcases List.mem_cons.mp he with he1 | he2
      · rw [he1]; exact hlt
      · exact hext e he2
    · rw [hch3, hchosen, List.append_assoc]; rfl
    · rw [hst3, hstored, List.append_assoc]; rfl

theorem int8cast_of_lt (k : ℕ) (h : k < 128) : int8cast k = k := by
  unfold int8cast
  have h1 : ((k : ℤ) + 128) % 256 = (k : ℤ) + 128 :=
    Int.emod_eq_of_lt (by omega) (by omega)
  omega

theorem lu_decomp_success (a : ℕ → ℕ → ℚ) (n : ℕ) (hn : n ≤ NMAX)
    (hnz : ∀ i, i < n → rowMax a n i ≠ 0) :
    ∃ a2 iS iC, lu_decomp a n = .ok (a2, iS, iC) ∧
      (∀ e ∈ iC, e < n) ∧ iS = iC.map int8cast := by
  have hph := phase1_ok a n hn hnz
  have hvlen : ((List.range n).map (fun i => 1 / rowMax a n i)).length = n := by simp
  have hvpos : ∀ q ∈ (List.range n).map (fun i => 1 / rowMax a n i), 0 < q := by
    intro q hq
    rcases List.mem_map.mp hq with ⟨i, hi, he⟩
    have hi2 := List.mem_range.mp hi
    have : 0 < rowMax a n i :=
      lt_of_le_of_ne (rowMax_nonneg a n i) (fun h => hnz i hi2 h.symm)
    rw [← he]
    exact one_div_pos.mpr this
  rcases luLoop_ok n (List.range n) ⟨a, _, [], []⟩
      (fun j hj => List.mem_range.mp hj) hvlen hvpos with
    ⟨st2, hloop, extra, hext, hch, hst⟩
  refine ⟨st2.a, st2.indxStored, st2.indxChosen, ?_, ?_, ?_⟩
  · simp only [lu_decomp, hph, hloop]
  · intro e he
    rw [hch] at he
    exact hext e (by simpa using he)
  · rw [hst, hch]
    simp

/-- Claim C5: over the full active range `n ≤ NMAX` of the scratch allocation,
`lu_decomp` raises the singular-matrix error exactly when some row of the
active `n × n` submatrix is entirely zero; when no row is all zero the
factorisation is returned to the caller (a zero pivot arising during the
elimination is replaced by `TINY` at lines 277-278 without raising). -/
theorem lu_decomp_singular_iff (a : ℕ → ℕ → ℚ) (n : ℕ) (hn : n ≤ NMAX) :
    ((lu_decomp a n = .error .singular) ↔ ∃ i, i < n ∧ ∀ j, j < n → a i j = 0) ∧
    ((¬ ∃ i, i < n ∧ ∀ j, j < n → a i j = 0) → ∃ r, lu_decomp a n = .ok r) := by
  have hsucc : (¬ ∃ i, i < n ∧ ∀ j, j < n → a i j = 0) →
      ∃ r, lu_decomp a n = .ok r := by
    intro hno
    have hnz : ∀ i, i < n → rowMax a n i ≠ 0 := by
      intro i hi h0
      exact hno ⟨i, hi, (rowMax_eq_zero_iff a n i).mp h0⟩
    rcases lu_decomp_success a n hn hnz with ⟨a2, iS, iC, hok, _, _⟩
    exact ⟨_, hok⟩
  constructor
  · constructor
    · intro hsing
      by_contra hno
      rcases hsucc hno with ⟨r, hok⟩
      rw [hok] at hsing
      cases hsing
    · intro hz
      rcases hz with ⟨i, hi, hrow⟩
      have : phase1 a n = .error .singular :=
        phase1_singular a n hn ⟨i, hi, (rowMax_eq_zero_iff a n i).mpr hrow⟩
      simp only [lu_decomp, this]
  · exact hsucc

/-- A concrete 2×2 matrix whose second row is entirely zero. -/
def aRowZero : ℕ → ℕ → ℚ := fun i j => if i = 0 ∧ j = 0 then 1 else 0

/-- Witness for C5: the all-zero second row makes `lu_decomp` raise the
singular-matrix error. -/
theorem lu_decomp_singular_iff_witness :
    ((2 : ℕ) ≤ NMAX) ∧ lu_decomp aRowZero 2 = .error .singular :=
  ⟨by decide, (lu_decomp_singular_iff aRowZero 2 (by decide)).1.mpr
    ⟨1, by omega, fun j hj => by simp [aRowZero]⟩⟩

/-! ### Bounds facts used by claim C10 -/

theorem getD_nonneg_of_all (l : List ℤ) (h : ∀ e ∈ l, 0 ≤ e) (i : ℕ) :
    0 ≤ l.getD i 0 := by
  by_cases hi : i < l.length
  · rw [List.getD_eq_getElem l 0 hi]
    exact h _ (List.getElem_mem _)
  · rw [List.getD_eq_default l 0 (by omega)]

theorem backsubForward_ok (a : ℕ → ℕ → ℚ) (indx : List ℤ)
    (hpos : ∀ i, 0 ≤ indx.getD i 0) :
    ∀ (js : List ℕ) (b : ℕ → ℚ) (ii : Option ℕ),
      ∃ r, backsubForward a indx js b ii = .ok r := by
  intro js
  induction js with
  | nil => intro b ii; exact ⟨_, rfl⟩
  | cons hd tl ih =>
    intro b ii
    simp only [backsubForward]
    rw [if_neg (not_lt.mpr (hpos hd))]
    exact ih _ _

theorem phase1_oob (a : ℕ → ℕ → ℚ) (n : ℕ) (hn : NMAX < n)
    (hnz : ∀ i, i ≤ NMAX → rowMax a n i ≠ 0) :
    phase1 a n = .error .oob := by
  unfold phase1
  have hsplit : List.range n =
      (List.range NMAX ++ [NMAX]) ++ (List.range (n - (NMAX + 1))).map ((NMAX + 1) + ·) := by
    conv_lhs => rw [show n = (NMAX + 1) + (n - (NMAX + 1)) by omega]
    rw [List.range_add, List.range_succ]
  rw [hsplit, phase1go_append, phase1go_append]
  rw [phase1go_ok a n (List.range NMAX) []
    (fun i hi => List.mem_range.mp hi)
    (fun i hi => hnz i (le_of_lt (List.mem_range.mp hi)))]
  simp only [phase1go, if_neg (hnz NMAX (le_refl _)), if_neg (lt_irrefl NMAX)]

/-- Claim C10: `lu_decomp` allocates its scratch vector with fixed length
`NMAX = 100` and stores pivots as `int8`.  For every active dimension
`1 ≤ n ≤ 100`, no out-of-bounds scratch access occurs, the stored (int8-cast)
pivot indices coincide with the pivot rows actually chosen (all of which lie
in `[0, n)`), and the subsequent `lu_backsubs` never addresses its right-hand
side at a negative (end-relative) index.  For `n > 100` with no all-zero row
among the first 101, the decomposition aborts on an out-of-bounds scratch
access: it is not well-defined beyond `NMAX`. -/
theorem lu_decomp_pivot_bounds :
    (∀ (a : ℕ → ℕ → ℚ) (n : ℕ) (b : ℕ → ℚ), 1 ≤ n → n ≤ NMAX →
      lu_decomp a n ≠ .error .oob ∧
      (∀ a2 iS iC, lu_decomp a n = .ok (a2, iS, iC) →
        iS = iC.map Int.ofNat ∧ (∀ e ∈ iC, e < n) ∧
        ∃ r, lu_backsubs a2 n iS b = .ok r)) ∧
    (∀ (a : ℕ → ℕ → ℚ) (n : ℕ), NMAX < n →
      (∀ i, i ≤ NMAX → rowMax a n i ≠ 0) →
      lu_decomp a n = .error .oob) := by
  constructor
  · intro a n b hn1 hn
    by_cases hz : ∃ i, i < n ∧ ∀ j, j < n → a i j = 0
    · have hsing : lu_decomp a n = .error .singular :=
        ((lu_decomp_singular_iff a n hn).1).mpr hz
      constructor
      · rw [hsing]
        intro h
        cases h

      · intro a2 iS iC hok
        rw [hsing] at hok
        cases hok
    · have hnz : ∀ i, i < n → rowMax a n i ≠ 0 := by
        intro i hi h0
        exact hz ⟨i, hi, (rowMax_eq_zero_iff a n i).mp h0⟩
      rcases lu_decomp_success a n hn hnz with ⟨a2, iS, iC, hok, hlt, hcast⟩
      constructor
      · rw [hok]; intro h; cases h
      · intro a2x iSx iCx hokx
        rw [hok] at hokx
        injection hokx with h1
        obtain ⟨ha, hiS, hiC⟩ : a2 = a2x ∧ iS = iSx ∧ iC = iCx := by
          simpa using h1
        subst ha
        subst hiS
        subst hiC
        have hmap : iS = iC.map Int.ofNat := by
          rw [hcast]
          apply List.map_congr_left
          intro e he
          exact int8cast_of_lt e (by have := hlt e he; unfold NMAX at hn; omega)
        refine ⟨hmap, hlt, ?_⟩
        have hnn : ∀ i, 0 ≤ iS.getD i 0 := by
          apply getD_nonneg_of_all
          intro e he
          rw [hmap] at he
          rcases List.mem_map.mp he with ⟨k, _, hk⟩
          rw [← hk]
          exact Int.ofNat_nonneg _
        rcases backsubForward_ok a2 iS hnn (List.range n) b none with ⟨r, hr⟩
        exact ⟨_, by simp only [lu_backsubs, hr]; rfl⟩
  · intro a n hn hnz
    simp only [lu_decomp, phase1_oob a n hn hnz]

/-- A concrete diagonal test matrix. -/
def aDiag : ℕ → ℕ → ℚ := fun i j => if i = j then 1 else 0

/-- Witness for C10 at `n = 2` (in bounds) and `n = 101` (scratch overflow). -/
theorem lu_decomp_pivot_bounds_witness :
    (((1 : ℕ) ≤ 2 ∧ (2 : ℕ) ≤ NMAX) ∧ lu_decomp aDiag 2 ≠ .error .oob) ∧
    (NMAX < 101 ∧ lu_decomp aDiag 101 = .error .oob) := by
  have hnz : ∀ i, i ≤ NMAX → rowMax aDiag 101 i ≠ 0 := by
    intro i hi
    have hmem : absQ (aDiag i i) ∈ (List.range 101).map (fun j => absQ (aDiag i j)) :=
      List.mem_map_of_mem _ (List.mem_range.mpr (by unfold NMAX at hi; omega))
    have hle := le_runMax_of_mem _ _ hmem
    have h1 : absQ (aDiag i i) = 1 := by simp [aDiag, absQ]
    rw [h1] at hle
    intro h0
    rw [rowMax] at h0
    rw [h0] at hle
    linarith
  exact ⟨⟨⟨by decide, by decide⟩,
      (lu_decomp_pivot_bounds.1 aDiag 2 (fun _ => 0) (by decide) (by decide)).1⟩,
    ⟨by decide, lu_decomp_pivot_bounds.2 aDiag 101 (by decide) hnz⟩⟩

/-! ## The line-search clamp (climate.py lines 850-856)

After each trial step the source runs

  for j1 in range(n_top_r+1, nlevel+1):
      if temp[j1] < tmin: temp[j1] = tmin+0.1
      elif temp[j1] > tmax: temp[j1] = tmax-0.1

`temp` has exactly `nlevel` entries, so the final iteration `j1 = nlevel`
reads one element past the end (an `IndexError` under plain NumPy; a silent
out-of-bounds access under numba's default `boundscheck=False`).  The claim-C3
theorem below exhibits this; in the models the access is absorbed by the
`pyGet`/`pySet` defaults so that the remaining, in-bounds behaviour can still
be stated. -/

/-- The resolved (non-negative) position addressed by a NumPy-style index. -/
def pyIdx {α : Type} (l : List α) (i : ℤ) : ℕ :=
  if 0 ≤ i then i.toNat else l.length - i.natAbs

/-- The index list of the clamp loop, Python `range(n_top_r+1, nlevel+1)`. -/
def clampIndices (nTopR : ℤ) (nlevel : ℕ) : List ℤ :=
  intRange (nTopR + 1) ((nlevel : ℤ) + 1)

/-- The clamp pass over a rational temperature list (lines 850-856). -/
def clampPass (nTopR : ℤ) (nlevel : ℕ) (tmin tmax : ℚ) (temp : List ℚ) : List ℚ :=
  (clampIndices nTopR nlevel).foldl
    (fun t j1 =>
      if pyGet t j1 < tmin then pySet t j1 (tmin + 1/10)
      else if tmax < pyGet t j1 then pySet t j1 (tmax - 1/10)
      else t) temp

/-- Claim C3 (code bug): at `nlevel = 2`, `n_top_r = -1` (i.e. `nstr[0] = 0`)
the clamp loop iterates over the indices `[0, 1, 2]`, which include the
out-of-bounds index `2 = nlevel`; the pass does not touch only valid level
indices.  The in-bounds part of the claim does hold: values below `tmin` are
set to exactly `tmin + 0.1` and values above `tmax` to exactly `tmax - 0.1`,
as the evaluation at `tmin = 5`, `tmax = 10`, `temp = [3, 20]` shows. -/
theorem clamp_loop_out_of_bounds :
    clampIndices (-1) 2 = [0, 1, 2] ∧
    ¬ (∀ j ∈ clampIndices (-1) 2, 0 ≤ j ∧ j < 2) ∧
    clampPass (-1) 2 5 10 [3, 20] = [5 + 1/10, 10 - 1/10] := by
  refine ⟨by with_unfolding_all decide, by with_unfolding_all decide,
    by with_unfolding_all decide⟩

/-! ## IEEE special values and the NaN guard (climate.py lines 850-856, 976-986)

The exact-rational embedding cannot represent the IEEE special values that
claim C8 is about, so the clamp-and-guard tail of the line-search body is
modelled once more over a four-point float domain `FP` with finite values,
two infinities and NaN, with IEEE comparison semantics (every comparison
against NaN is false) and IEEE addition (NaN is absorbing and
`+inf + -inf = NaN`). -/

inductive FP
  | fin (q : ℚ)
  | pinf
  | ninf
  | nan
deriving DecidableEq

/-- IEEE addition on the four-point float domain. -/
def FP.add : FP → FP → FP
  | fin a, fin b => fin (a + b)
  | fin _, pinf => pinf
  | fin _, ninf => ninf
  | fin _, nan => nan
  | pinf, fin _ => pinf
  | pinf, pinf => pinf
  | pinf, ninf => nan
  | pinf, nan => nan
  | ninf, fin _ => ninf
  | ninf, pinf => nan
  | ninf, ninf => ninf
  | ninf, nan => nan
  | nan, _ => nan

/-- IEEE strict less-than: any comparison involving NaN is false. -/
def FP.ltb : FP → FP → Bool
  | fin a, fin b => decide (a < b)
  | fin _, pinf => true
  | fin _, ninf => false
  | fin _, nan => false
  | pinf, _ => false
  | ninf, pinf => true
  | ninf, fin _ => true
  | ninf, ninf => false
  | ninf, nan => false
  | nan, _ => false

/-- NaN test (`np.isnan`). -/
def FP.isnan : FP → Bool
  | nan => true
  | _ => false

/-- Finiteness test. -/
def FP.isFinite : FP → Bool
  | fin _ => true
  | _ => false

/-- Sequential summation (`np.sum`). -/
def FP.sum (l : List FP) : FP := l.foldl FP.add (FP.fin 0)

/-- NumPy-style element read on a float list. -/
def pyGetF (l : List FP) (i : ℤ) : FP := l.getD (pyIdx l i) (FP.fin 0)

/-- NumPy-style element write on a float list. -/
def pySetF (l : List FP) (i : ℤ) (x : FP) : List FP := l.set (pyIdx l i) x

/-- The clamp pass (lines 850-856) over the float domain. -/
def clampPassFP (nTopR : ℤ) (nlevel : ℕ) (tmin tmax : ℚ) (temp : List FP) :
    List FP :=
  (clampIndices nTopR nlevel).foldl
    (fun t j1 =>
      if FP.ltb (pyGetF t j1) (FP.fin tmin) then pySetF t j1 (FP.fin (tmin + 1/10))
      else if FP.ltb (FP.fin tmax) (pyGetF t j1) then pySetF t j1 (FP.fin (tmax - 1/10))
      else t) temp

/-- The NaN guard (lines 982-986): if the sum of the profile is NaN, force
the non-terminal continue flag 1 and reset the profile to
`temp_old.copy() + 0.5`. -/
def nanGuard (temp temp_old : List FP) (flag : ℕ) : List FP × ℕ :=
  if (FP.sum temp).isnan then
    (temp_old.map (fun t => FP.add t (FP.fin (1/2))), 1)
  else (temp, flag)

/-- The tail of one line-search iteration as far as claim C8 is concerned:
the clamp pass applied to the trial profile, followed by the NaN guard.
Between the two the source only recomputes fluxes, the merit and the
convergence flag, none of which writes `temp`; `flag` is the convergence flag
reaching line 982, which the guard overrides. -/
def lineSearchTail (nTopR : ℤ) (nlevel : ℕ) (tmin tmax : ℚ)
    (temp temp_old : List FP) (flag : ℕ) : List FP × ℕ :=
  nanGuard (clampPassFP nTopR nlevel tmin tmax temp) temp_old flag

/-- Claim C8, counterexample: a trial profile with a `+inf` entry (non-finite,
but not NaN) is not reset to `temp_old + 0.5`: the clamp silently replaces the
infinity by `tmax - 0.1` before the guard runs, and the flag (here a converged
flag 2 produced by the convergence check) is kept, not forced to the
non-terminal 1. -/
theorem nan_guard_counterexample :
    (¬ (FP.pinf.isFinite = true)) ∧ FP.pinf ∈ [FP.pinf, FP.fin 300] ∧
    (lineSearchTail (-1) 2 10 500 [FP.pinf, FP.fin 300]
        [FP.fin 100, FP.fin 200] 2).2 = 2 ∧
    (2 : ℕ) ≠ 1 ∧
    (∀ t ∈ (lineSearchTail (-1) 2 10 500 [FP.pinf, FP.fin 300]
        [FP.fin 100, FP.fin 200] 2).1, t.isFinite = true) := by
  refine ⟨by decide, by decide, by decide, by decide, by decide⟩

theorem FP.add_nan_left (x : FP) : FP.add FP.nan x = FP.nan := rfl

theorem FP.add_nan_right (x : FP) : FP.add x FP.nan = FP.nan := by
  cases x <;> rfl

theorem FP.foldl_add_nan (l : List FP) :
    ∀ init : FP, (init = FP.nan ∨ FP.nan ∈ l) →
      l.foldl FP.add init = FP.nan := by
  induction l with
  | nil =>
    intro init h
    rcases h with h | h
    · exact h
    · cases h
  | cons hd tl ih =>
    intro init h
    simp only [List.foldl_cons]
    rcases h with h | h
    · exact ih _ (Or.inl (by rw [h, FP.add_nan_left]))
    · rcases List.mem_cons.mp h with he | hm
      · exact ih _ (Or.inl (by rw [← he, FP.add_nan_right]))
      · exact ih _ (Or.inr hm)

theorem FP.sum_nan (l : List FP) (h : FP.nan ∈ l) : (FP.sum l).isnan = true := by
  rw [FP.sum, FP.foldl_add_nan l _ (Or.inr h)]
  rfl

theorem clampPassFP_step_preserves_nan (tmin tmax : ℚ) (t : List FP) (j1 : ℤ)
    (k : ℕ) (_hk : k < t.length) (h : t.getD k (FP.fin 0) = FP.nan) :
    ((if FP.ltb (pyGetF t j1) (FP.fin tmin) then pySetF t j1 (FP.fin (tmin + 1/10))
      else if FP.ltb (FP.fin tmax) (pyGetF t j1) then pySetF t j1 (FP.fin (tmax - 1/10))
      else t).getD k (FP.fin 0) = FP.nan) := by
  by_cases hidx : pyIdx t j1 = k
  · have hv : pyGetF t j1 = FP.nan := by rw [pyGetF, hidx, h]
    rw [hv]
    simp only [FP.ltb, if_false]
    exact h
  · by_cases h1 : FP.ltb (pyGetF t j1) (FP.fin tmin)
    · rw [if_pos h1, pySetF, getD_set_other _ _ _ _ _ hidx]
      exact h
    · rw [if_neg h1]
      by_cases h2 : FP.ltb (FP.fin tmax) (pyGetF t j1)
      · rw [if_pos h2, pySetF, getD_set_other _ _ _ _ _ hidx]
        exact h
      · rw [if_neg h2]
        exact h

theorem clampPassFP_preserves_nan (nTopR : ℤ) (nlevel : ℕ) (tmin tmax : ℚ)
    (temp : List FP) (k : ℕ) (hk : k < temp.length)
    (h : temp.getD k (FP.fin 0) = FP.nan) :
    (clampPassFP nTopR nlevel tmin tmax temp).getD k (FP.fin 0) = FP.nan ∧
    k < (clampPassFP nTopR nlevel tmin tmax temp).length := by
  rw [clampPassFP]
  generalize clampIndices nTopR nlevel = js
  induction js generalizing temp with
  | nil => exact ⟨h, hk⟩
  | cons hd tl ih =>
    simp only [List.foldl_cons]
    apply ih
    · by_cases h1 : FP.ltb (pyGetF temp hd) (FP.fin tmin)
      · simp only [if_pos h1, pySetF, List.length_set]
        exact hk
      · rw [if_neg h1]
        by_cases h2 : FP.ltb (FP.fin tmax) (pyGetF temp hd)
        · simp only [if_pos h2, pySetF, List.length_set]
          exact hk
        · rw [if_neg h2]
          exact hk
    · exact clampPassFP_step_preserves_nan tmin tmax temp hd k hk h

/-- Claim C8, amended: when an entry of the trial profile is NaN (the only
non-finite value that can reach the guard, since the clamp replaces the
infinities by in-range values), the solver resets the whole profile to
`temp_old + 0.5` and exits the line-search loop with the non-terminal
continue flag 1, whatever flag the convergence check produced. -/
theorem nan_guard_amended (nTopR : ℤ) (nlevel : ℕ) (tmin tmax : ℚ)
    (temp temp_old : List FP) (flag : ℕ) (h : FP.nan ∈ temp) :
    lineSearchTail nTopR nlevel tmin tmax temp temp_old flag
      = (temp_old.map (fun t => FP.add t (FP.fin (1/2))), 1) := by
  rcases List.mem_iff_getElem.mp h with ⟨k, hk, hget⟩
  have hgetD : temp.getD k (FP.fin 0) = FP.nan := by
    rw [List.getD_eq_getElem temp (FP.fin 0) hk, hget]
  have hpres := clampPassFP_preserves_nan nTopR nlevel tmin tmax temp k hk hgetD
  have hmem : FP.nan ∈ clampPassFP nTopR nlevel tmin tmax temp := by
    rw [← hpres.1]
    rw [List.getD_eq_getElem _ (FP.fin 0) hpres.2]
    exact List.getElem_mem _
  rw [lineSearchTail, nanGuard, if_pos (FP.sum_nan _ hmem)]

/-- Witness for the amended C8 theorem at a concrete NaN-bearing profile. -/
theorem nan_guard_amended_witness :
    FP.nan ∈ [FP.nan, FP.fin 300] ∧
    lineSearchTail (-1) 2 10 500 [FP.nan, FP.fin 300] [FP.fin 100, FP.fin 200] 2
      = ([FP.fin 100, FP.fin 200].map (fun t => FP.add t (FP.fin (1/2))), 1) :=
  ⟨by decide, nan_guard_amended (-1) 2 10 500 [FP.nan, FP.fin 300]
    [FP.fin 100, FP.fin 200] 2 (by decide)⟩

/-! ## The Newton solver `t_start` (climate.py lines 337-1009)

The solver is embedded with exact rationals and explicit state passing.
Modelling decisions, each marked in the corresponding definition:
- the flux evaluation `climate(pressure, temp, ..., reflected, thermal)` is a
  model parameter `fluxFn pressure temp reflected thermal` returning the five
  extracted flux lists; per the specification the flux engine is a pure
  function of its arguments (its per-bin internals live outside `t_start`);
- the transcendental functions `exp`, `log`, `log10`, `sqrt` of the source are
  abstract parameters (`expQ`, `logQ`, `log10Q`, `sqrtQ`);
- `do_holes=None` and `moist=None` (the default dry, non-patchy path) are
  modelled; the alternative branches only change which flux call is made, and
  the experimental moist path is out of scope per the specification;
- the unused parameters `conv` and `x_max_mult` (never read in the body), the
  dead counter `i_count` (lines 569, 595), the dead diagnostic block computing
  `err`, `dmx`, `jmx`, `scalt`, `slow` (lines 791-807, none of which is read
  afterwards), and the `print` statements are omitted;
- Python float division by zero raises `ZeroDivisionError` under numba's
  default python error model; the model returns `TErr.zeroDivision` at the two
  places a zero denominator can actually arise (`test/abs(tidal[0])` at
  line 554, `alamin = tolx/test` at line 778, and the denominators of the
  backtracking interpolation at lines 947-971);
- the NaN guard (lines 982-986) is unrepresentable over exact rationals and is
  a no-op here; its behaviour is modelled separately over `FP` (claim C8);
- the `while` loop of the line search (line 789) has no a-priori bound, so the
  model takes a fuel parameter `lineFuel` and reports `TErr.fuelExhausted`
  when it runs out (a model artifact, not a source behaviour);
- errors carry the `TState` at the moment they propagate, so that the frame
  claim C9 can be stated on every exit path. -/

/-- The extracted outputs of one `climate(...)` call (lines 443-453, 653-658,
872-877): net visible flux per layer and level, net thermal flux per layer and
level, and the top row `flux_plus_ir[0,:]`. -/
structure FluxOut where
  vLayer : List ℚ
  vLevel : List ℚ
  irLayer : List ℚ
  irLevel : List ℚ
  plusIr0 : List ℚ

/-- The caller-supplied solver inputs, plus the abstract transcendental
functions and the line-search fuel. -/
structure TParams where
  nofczns : ℕ
  nstr : List ℤ
  it_max : ℕ
  rfaci : ℚ
  rfacv : ℚ
  nlevel : ℕ
  tidal : List ℚ
  tmin : ℚ
  tmax : ℚ
  t_table : List ℚ
  p_table : List ℚ
  gradTab : ℕ → ℕ → ℚ
  cpTab : ℕ → ℕ → ℚ
  fluxFn : List ℚ → List ℚ → Bool → Bool → FluxOut
  save_profile : ℕ
  expQ : ℚ → ℚ
  logQ : ℚ → ℚ
  log10Q : ℚ → ℚ
  sqrtQ : ℚ → ℚ
  lineFuel : ℕ

def TParams.nstrD (P : TParams) (i : ℕ) : ℤ := P.nstr.getD i 0

/-- Line 417: `n_top_r = nstr[0] - 1`. -/
def TParams.nTopR (P : TParams) : ℤ := P.nstrD 0 - 1

/-- The zone-triple offsets `range(0, 3*nofczns, 3)`. -/
def zoneStarts (nofczns : ℕ) : List ℕ := (List.range nofczns).map (· * 3)

/-- Perturbation scale `eps = 1e-4` (line 415). -/
def epsPert : ℚ := 1 / 10000

/-- Flux tolerance `tolf = 5e-3` (line 425). -/
def tolfC : ℚ := 1 / 200

/-- Temperature tolerance `tolx = tolf` (line 426). -/
def tolxC : ℚ := tolfC

/-- Gradient tolerance `tolmin = 1e-5` (line 424). -/
def tolminC : ℚ := 1 / 100000

/-- Armijo constant `alf = 1e-4` (line 422). -/
def alfC : ℚ := 1 / 10000

/-- The mutable array state owned by the caller: the temperature profile
(the solved quantity) and the pressure profile. -/
structure TState where
  temp : List ℚ
  pressure : List ℚ
deriving DecidableEq

def TState.withTemp (s : TState) (t : List ℚ) : TState := ⟨t, s.pressure⟩

@[simp] theorem TState.withTemp_pressure (s : TState) (t : List ℚ) :
    (s.withTemp t).pressure = s.pressure := rfl

inductive TErr
  | zeroDivision
  | singularMatrix
  | scratchOob
  | unboundLocal
  | fuelExhausted
deriving DecidableEq

def mapLuErr : LUErr → TErr
  | .singular => .singularMatrix
  | .oob => .scratchOob
  | .unboundLocal => .unboundLocal

/-- The returned tuple of `t_start` (lines 561, 1001, 1009): temperature,
lapse rate, convergence flag, the fourth flux slot (`flux_net_ir` on the
converged paths, `flux_net_ir_layer` on iteration exhaustion), the top row of
`flux_plus_ir`, the profile history, and the pressure array as held by the
solver on return. -/
structure TResult where
  temp : List ℚ
  dtdp : List ℚ
  flag : ℕ
  flux4 : List ℚ
  plusIr0 : List ℚ
  profiles : List ℚ
  pressure : List ℚ
deriving DecidableEq

/-- The lapse-rate computation (lines 557-559, 993-995, 1004-1006):
`dtdp[j] = (log T[j] - log T[j+1]) / (log P[j] - log P[j+1])`. -/
def dtdpOf (P : TParams) (temp pressure : List ℚ) : List ℚ :=
  (List.range (P.nlevel - 1)).map (fun j =>
    (P.logQ (temp.getD j 0) - P.logQ (temp.getD (j + 1) 0)) /
      (P.logQ (pressure.getD j 0) - P.logQ (pressure.getD (j + 1) 0)))

/-- Total net flux `rfaci*flux_ir + rfacv*flux_v + tidal` per level
(lines 474-475, 880-881). -/
def totalFlux (P : TParams) (ir v : List ℚ) : List ℚ :=
  (List.range P.nlevel).map (fun i =>
    P.rfaci * ir.getD i 0 + P.rfacv * v.getD i 0 + P.tidal.getD i 0)

/-- State of the first residual assembly (lines 488-549). -/
structure Asm1St where
  dflux : List ℚ
  fvec : List ℚ
  sum : ℚ
  sum1 : ℚ
  test : ℚ
  ntotal : ℕ
  nao : ℤ
  flagNao : Bool

/-- One zone of the first residual assembly (lines 501-548): the
top-of-atmosphere contribution when the zone's top is the atmosphere top, the
layer-midpoint contributions, and the `nao` bookkeeping with the one-shot
negative-index guard (lines 495-499, 542-548). -/
def assembly1Zone (P : TParams) (fnet fmid temp : List ℚ) (st : Asm1St)
    (nca : ℕ) : Asm1St :=
  let nTopA := P.nstrD nca
  let nStrtA := P.nstrD (nca + 1)
  let nBotA := P.nstrD (nca + 2) + 1
  let st1 :=
    if nTopA = P.nTopR + 1 then
      let d0 := pyGet fnet (P.nTopR + 1)
      { st with
        dflux := pySet st.dflux 0 d0
        fvec := pySet st.fvec 0 d0
        sum := st.sum + d0 ^ 2
        sum1 := st.sum1 + (pyGet temp 0) ^ 2
        test := if st.test < absQ d0 then absQ d0 else st.test
        ntotal := st.ntotal + 1 }
    else st
  let st2 := (intRange (nTopA + 1) (nStrtA + 1)).foldl
    (fun st j =>
      let v := pyGet fmid (j - 1)
      { st with
        dflux := pySet st.dflux (j - st.nao) v
        fvec := pySet st.fvec (j - st.nao) v
        sum := st.sum + v ^ 2
        sum1 := st.sum1 + (pyGet temp (j - st.nao)) ^ 2
        test := if st.test < absQ v then absQ v else st.test
        ntotal := st.ntotal + 1 }) st1
  { st2 with
    nao := (if st2.flagNao then P.nTopR else st2.nao) + (nBotA - nStrtA)
    flagNao := false }

/-- The first residual assembly over all zones, entered with the carried
`dflux` and `f_vec` arrays and fresh accumulators (lines 489-493). -/
def assembly1 (P : TParams) (fnet fmid temp dflux fvec : List ℚ) : Asm1St :=
  (zoneStarts P.nofczns).foldl (assembly1Zone P fnet fmid temp)
    ⟨dflux, fvec, 0, 0, 0, 0,
      if P.nTopR < 0 then 0 else P.nTopR, decide (P.nTopR < 0)⟩

/-- Temperature reconstruction from the perturbed `beta` vector
(lines 604-633): radiative levels are copied from `beta`; convective levels
are integrated along the adiabat, with the gradient looked up at
`beta[j1-1]` but the integration anchored at `temp[j1-1]`. -/
def reconstructFromBeta (P : TParams) (beta pressure temp : List ℚ) : List ℚ :=
  (zoneStarts P.nofczns).foldl
    (fun temp nb =>
      let nTopB := P.nstrD nb + 1 - (if nb = 0 then 1 else 0)
      let nStrtB := P.nstrD (nb + 1)
      let nBotB := P.nstrD (nb + 2) + 1
      let temp1 := (intRange nTopB (nStrtB + 1)).foldl
        (fun t j1 => pySet t j1 (pyGet beta j1)) temp
      (intRange (nStrtB + 1) (nBotB + 1)).foldl
        (fun t j1 =>
          let press := P.sqrtQ (pyGet pressure (j1 - 1) * pyGet pressure j1)
          let gradx := (did_grad_cp_core (P.log10Q (pyGet beta (j1 - 1)))
            (P.log10Q press) P.t_table P.p_table P.gradTab P.cpTab).1
          pySet t j1 (P.expQ (P.logQ (pyGet t (j1 - 1)) +
            gradx * (P.logQ (pyGet pressure j1) -
              P.logQ (pyGet pressure (j1 - 1)))))) temp1)
    temp

/-- Pointwise update of the Jacobian (stored at full `nlevel` size). -/
def updZ (A : ℤ → ℤ → ℚ) (i j : ℤ) (x : ℚ) : ℤ → ℤ → ℚ :=
  fun r c => if r = i ∧ c = j then x else A r c

/-- State of the Jacobian column fill (lines 662-711). -/
structure JacFillSt where
  A : ℤ → ℤ → ℚ
  nco : ℤ
  flagNco : Bool

/-- One zone of the Jacobian column fill for perturbed level `jm`
(lines 673-711): the zone-top difference quotient (level flux at the
atmosphere top, layer flux otherwise) and the interior rows, with the `nco`
bookkeeping. -/
def jacFillZone (P : TParams) (fluxIr fluxIrLayer fnetOld fmidOld : List ℚ)
    (delT : ℚ) (jm no : ℤ) (st : JacFillSt) (nc : ℕ) : JacFillSt :=
  let nTopC := P.nstrD nc + 1 - (if nc = 0 then 1 else 0)
  let nStrtC := P.nstrD (nc + 1)
  let nBotC := P.nstrD (nc + 2) + 1
  let A1 :=
    if nTopC = P.nTopR + 1 then
      updZ st.A (nTopC - st.nco) (jm - no)
        ((pyGet fluxIr nTopC - pyGet fnetOld nTopC) / delT)
    else
      updZ st.A (nTopC - st.nco) (jm - no)
        ((pyGet fluxIrLayer (nTopC - 1) - pyGet fmidOld (nTopC - 1)) / delT)
  let A2 := (intRange nTopC nStrtC).foldl
    (fun A im => updZ A (im + 1 - st.nco) (jm - no)
      ((pyGet fluxIrLayer im - pyGet fmidOld im) / delT)) A1
  { A := A2
    nco := (if st.flagNco then P.nTopR else st.nco) + (nBotC - nStrtC)
    flagNco := false }

/-- The Jacobian column fill entered for each perturbed level
(lines 663-671). -/
def jacFill (P : TParams) (fluxIr fluxIrLayer fnetOld fmidOld : List ℚ)
    (delT : ℚ) (jm no : ℤ) (A : ℤ → ℤ → ℚ) : ℤ → ℤ → ℚ :=
  ((zoneStarts P.nofczns).foldl
    (jacFillZone P fluxIr fluxIrLayer fnetOld fmidOld delT jm no)
    ⟨A, if P.nTopR < 0 then 0 else P.nTopR, decide (P.nTopR < 0)⟩).A

/-- State of the Jacobian construction loop (lines 567-721). -/
structure JacSt where
  st : TState
  beta : List ℚ
  A : ℤ → ℤ → ℚ
  fluxIr : List ℚ
  fluxIrLayer : List ℚ
  plusIr0 : List ℚ
  no : ℤ
  flagNo : Bool

/-- One zone of the Jacobian construction (lines 577-721): for every
radiative level `jm` of the zone, perturb `beta[jm]` by
`del_t = max(eps*temp_old[jm], 3)`, reconstruct the profile, recompute the
thermal-only flux, fill the Jacobian column and undo the perturbation;
then the `no` bookkeeping. -/
def jacZone (P : TParams) (temp_old fnetOld fmidOld : List ℚ)
    (s : JacSt) (nz : ℕ) : JacSt :=
  let nTop := P.nstrD nz + 1 - (if nz = 0 then 1 else 0)
  let nStrt := P.nstrD (nz + 1)
  let nConvBot := P.nstrD (nz + 2) + 1
  let s1 := (intRange nTop (nStrt + 1)).foldl
    (fun s jm =>
      let delT := pyMax (epsPert * pyGet temp_old jm) 3
      let beta1 := pySet s.beta jm (pyGet s.beta jm + delT)
      let temp1 := reconstructFromBeta P beta1 s.st.pressure s.st.temp
      let fr := P.fluxFn s.st.pressure temp1 false true
      let A1 := jacFill P fr.irLevel fr.irLayer fnetOld fmidOld delT jm s.no s.A
      let beta2 := pySet beta1 jm (pyGet beta1 jm - delT)
      { s with
        st := s.st.withTemp temp1
        beta := beta2
        A := A1
        fluxIr := fr.irLevel
        fluxIrLayer := fr.irLayer
        plusIr0 := fr.plusIr0 }) s
  { s1 with
    no := (if s1.flagNo then P.nTopR else s1.no) + (nConvBot - nStrt)
    flagNo := false }

/-- The gradient and Newton right-hand side (lines 726-733):
`g[i] = sum_j A[j,i]*f_vec[j]`, `p[i] = -f_vec[i]` for `i < n_total`. -/
def gpCompute (A : ℤ → ℤ → ℚ) (fvec g p : List ℚ) (ntotal : ℕ) :
    List ℚ × List ℚ :=
  (List.range ntotal).foldl
    (fun gp i =>
      let s := (List.range ntotal).foldl
        (fun s j => s + A (Int.ofNat j) (Int.ofNat i) * fvec.getD j 0) 0
      (gp.1.set i s, gp.2.set i (-(fvec.getD i 0)))) (g, p)

/-- The linear solve `mat_sol` (lines 182-210, called at line 737):
`lu_decomp` on the active `n_total` dimension followed by `lu_backsubs`,
writing the factorisation back into the full-size Jacobian and the solution
back into `p`. -/
def matSolModel (A : ℤ → ℤ → ℚ) (ntotal nlevel : ℕ) (p : List ℚ) :
    Except LUErr ((ℤ → ℤ → ℚ) × List ℚ) :=
  match lu_decomp (fun i j => A (i : ℤ) (j : ℤ)) ntotal with
  | .error e => .error e
  | .ok adec =>
    match lu_backsubs adec.1 ntotal adec.2.1 (fun i => p.getD i 0) with
    | .error e => .error e
    | .ok bfun =>
      .ok ((fun i j => if 0 ≤ i ∧ 0 ≤ j then adec.1 i.toNat j.toNat else A i j),
        (List.range nlevel).map bfun)

/-- The trial-step application (lines 809-848): radiative levels get
`beta[j] + alam*p[j-ndo]`; convective levels are re-integrated along the
adiabat anchored at the freshly updated `temp[j1-1]`; with the `ndo`
bookkeeping. -/
def trialStep (P : TParams) (beta p : List ℚ) (alam : ℚ)
    (pressure temp : List ℚ) : List ℚ :=
  ((zoneStarts P.nofczns).foldl
    (fun (acc : List ℚ × ℤ × Bool) nd =>
      let nTopD := P.nstrD nd + 1 - (if nd = 0 then 1 else 0)
      let nStrtD := P.nstrD (nd + 1)
      let nBotD := P.nstrD (nd + 2) + 1
      let t1 := (intRange nTopD (nStrtD + 1)).foldl
        (fun t j => pySet t j (pyGet beta j + alam * pyGet p (j - acc.2.1))) acc.1
      let t2 := (intRange (nStrtD + 1) (nBotD + 1)).foldl
        (fun t j1 =>
          let press := P.sqrtQ (pyGet pressure (j1 - 1) * pyGet pressure j1)
          let gradx := (did_grad_cp_core (P.log10Q (pyGet t (j1 - 1)))
            (P.log10Q press) P.t_table P.p_table P.gradTab P.cpTab).1
          pySet t j1 (P.expQ (P.logQ (pyGet t (j1 - 1)) +
            gradx * (P.logQ (pyGet pressure j1) -
              P.logQ (pyGet pressure (j1 - 1)))))) t1
      (t2, (if acc.2.2 then P.nTopR else acc.2.1) + (nBotD - nStrtD), false))
    (temp, if P.nTopR < 0 then 0 else P.nTopR, decide (P.nTopR < 0))).1

/-- State of the second residual assembly (lines 883-920). -/
structure Asm2St where
  fvec : List ℚ
  sum : ℚ
  nao : ℤ
  flagNao : Bool

/-- The second residual assembly inside the line search (lines 883-920);
unlike the first assembly it has an `else` branch for a zone top that is not
the atmosphere top, and it does not recount `n_total`. -/
def assembly2 (P : TParams) (fnet fmid fvec : List ℚ) : List ℚ × ℚ :=
  let r := (zoneStarts P.nofczns).foldl
    (fun (st : Asm2St) nca =>
      let nTopA := P.nstrD nca + 1 - (if nca = 0 then 1 else 0)
      let nStrtA := P.nstrD (nca + 1)
      let nBotA := P.nstrD (nca + 2) + 1
      let st1 :=
        if nTopA = P.nTopR + 1 then
          let v := pyGet fnet (P.nTopR + 1)
          { st with fvec := pySet st.fvec 0 v, sum := st.sum + v ^ 2 }
        else
          let v := pyGet fmid (nTopA - 1)
          { st with
            fvec := pySet st.fvec (nTopA - st.nao) v
            sum := st.sum + v ^ 2 }
      let st2 := (intRange (nTopA + 1) (nStrtA + 1)).foldl
        (fun st j =>
          let v := pyGet fmid (j - 1)
          { st with
            fvec := pySet st.fvec (j - st.nao) v
            sum := st.sum + v ^ 2 }) st1
      { st2 with
        nao := (if st2.flagNao then P.nTopR else st2.nao) + (nBotA - nStrtA)
        flagNao := false })
    ⟨fvec, 0, if P.nTopR < 0 then 0 else P.nTopR, decide (P.nTopR < 0)⟩
  (r.fvec, r.sum)

/-- The backtracking step-length update (lines 940-975): a quadratic model on
the first trial (`alam = 1`), a cubic model from the last two trials
afterwards, clamped to at most `alam/2` on the cubic branch; zero
denominators raise. -/
def backtrackLam (sqrtQ : ℚ → ℚ) (alam alam2 f f2 f_old slope : ℚ) :
    Except TErr ℚ :=
  if alam = 1 then
    if f - f_old - slope = 0 then .error .zeroDivision
    else .ok (-slope / (2 * (f - f_old - slope)))
  else
    if alam = 0 ∨ alam2 = 0 ∨ alam - alam2 = 0 then .error .zeroDivision
    else
      let rhs1 := f - f_old - alam * slope
      let rhs2 := f2 - f_old - alam2 * slope
      let anr := (rhs1 / alam ^ 2 - rhs2 / alam2 ^ 2) / (alam - alam2)
      let bq := (-alam2 * rhs1 / alam ^ 2 + alam * rhs2 / alam2 ^ 2) / (alam - alam2)
      match
        (if anr = 0 then
          (if bq = 0 then .error .zeroDivision else .ok (-slope / (2 * bq)))
        else
          let disc := bq * bq - 3 * anr * slope
          if disc < 0 then .ok (alam / 2)
          else if bq ≤ 0 then .ok ((-bq + sqrtQ disc) / (3 * anr))
          else if bq + sqrtQ disc = 0 then .error TErr.zeroDivision
          else .ok (-slope / (bq + sqrtQ disc)) : Except TErr ℚ) with
      | .error e => .error e
      | .ok tmplam => .ok (if alam / 2 < tmplam then alam / 2 else tmplam)

/-- State carried around one line-search iteration. -/
structure LSSt where
  st : TState
  fluxIr : List ℚ
  fluxIrLayer : List ℚ
  plusIr0 : List ℚ
  fvec : List ℚ
  f : ℚ
  f2 : ℚ
  alam : ℚ
  alam2 : ℚ
  check : Bool
  flag : ℕ

/-- The line-search `while` loop (lines 789-986): apply the trial step, clamp,
recompute the thermal flux and the residual, then either run the convergence
check (small-step path with `check = True`, or the Armijo test) and exit with
its flag, or backtrack and iterate.  The NaN guard (lines 982-986) is a no-op
over exact rationals; see `lineSearchTail` for its float model. -/
def lineSearchLoop (P : TParams) (beta p g dflux : List ℚ)
    (slope alamin f_old : ℚ) (temp_old fluxNetV fluxNetVLayer : List ℚ)
    (ntotal : ℕ) : ℕ → LSSt → Except (TErr × TState) LSSt
  | 0, s => .error (.fuelExhausted, s.st)
  | fuel + 1, s =>
    let temp1 := trialStep P beta p s.alam s.st.pressure s.st.temp
    let temp2 := clampPass P.nTopR P.nlevel P.tmin P.tmax temp1
    let st2 := s.st.withTemp temp2
    let fr := P.fluxFn st2.pressure temp2 false true
    let fnet := totalFlux P fr.irLevel fluxNetV
    let fmid := totalFlux P fr.irLayer fluxNetVLayer
    let asm := assembly2 P fnet fmid s.fvec
    let fNew := asm.2 / 2
    if s.alam < alamin then
      let cc := check_convergence asm.1 ntotal tolfC true fNew dflux tolminC
        temp2 temp_old g tolxC
      .ok { st := st2
            fluxIr := fr.irLevel
            fluxIrLayer := fr.irLayer
            plusIr0 := fr.plusIr0
            fvec := asm.1
            f := fNew
            f2 := s.f2
            alam := s.alam
            alam2 := s.alam2
            check := cc.2
            flag := cc.1 }
    else if fNew ≤ f_old + alfC * s.alam * slope then
      let cc := check_convergence asm.1 ntotal tolfC s.check fNew dflux tolminC
        temp2 temp_old g tolxC
      .ok { st := st2
            fluxIr := fr.irLevel
            fluxIrLayer := fr.irLayer
            plusIr0 := fr.plusIr0
            fvec := asm.1
            f := fNew
            f2 := s.f2
            alam := s.alam
            alam2 := s.alam2
            check := cc.2
            flag := cc.1 }
    else
      match backtrackLam P.sqrtQ s.alam s.alam2 fNew s.f2 f_old slope with
      | .error e => .error (e, st2)
      | .ok tmplam =>
        lineSearchLoop P beta p g dflux slope alamin f_old temp_old
          fluxNetV fluxNetVLayer ntotal fuel
          { st := st2
            fluxIr := fr.irLevel
            fluxIrLayer := fr.irLayer
            plusIr0 := fr.plusIr0
            fvec := asm.1
            f := fNew
            f2 := fNew
            alam := pyMax tmplam (s.alam / 10)
            alam2 := s.alam
            check := s.check
            flag := 0 }

/-- State carried across outer iterations: the array state, the current
thermal fluxes, the persistent scratch arrays `dflux`, `f_vec`, `p`, `g` and
Jacobian `A` (allocated once at lines 458-466), the cumulatively rescaled
`step_max` (lines 421, 565), the backtracking memory `alam2` (line 423), the
profile history and the flag of the last finished iteration. -/
structure OuterSt where
  st : TState
  fluxIr : List ℚ
  fluxIrLayer : List ℚ
  plusIr0 : List ℚ
  dflux : List ℚ
  fvec : List ℚ
  p : List ℚ
  g : List ℚ
  A : ℤ → ℤ → ℚ
  stepMax : ℚ
  alam2 : ℚ
  profiles : List ℚ
  lastFlag : Option ℕ

/-- One outer iteration (lines 470-1001): total flux, snapshots, residual
assembly, the already-at-a-root fast path (division by `|tidal[0]|`, raising
on a zero top tidal flux), the Jacobian construction, the linear solve, the
step cap, the line search, the history append, and the converged/continue
decision.  Returns either the final `TResult` or the state for the next
iteration. -/
def outerStep (P : TParams) (fluxNetV fluxNetVLayer : List ℚ) (s : OuterSt) :
    Except (TErr × TState) (TResult ⊕ OuterSt) :=
  let fnet := totalFlux P s.fluxIr fluxNetV
  let fmid := totalFlux P s.fluxIrLayer fluxNetVLayer
  let beta := s.st.temp
  let temp_old := s.st.temp
  let fnetOld := s.fluxIr
  let fmidOld := s.fluxIrLayer
  let asm := assembly1 P fnet fmid s.st.temp s.dflux s.fvec
  if P.tidal.getD 0 0 = 0 then .error (.zeroDivision, s.st)
  else if asm.test / absQ (P.tidal.getD 0 0) < (1 / 100) * tolfC then
    .ok (.inl ⟨s.st.temp, dtdpOf P s.st.temp s.st.pressure, 2, s.fluxIr,
      s.plusIr0, s.profiles, s.st.pressure⟩)
  else
    let stepMax1 := s.stepMax * pyMax (P.sqrtQ asm.sum1) ((asm.ntotal : ℚ))
    let jac := (zoneStarts P.nofczns).foldl
      (jacZone P temp_old fnetOld fmidOld)
      ⟨s.st, beta, s.A, s.fluxIr, s.fluxIrLayer, s.plusIr0,
        if P.nTopR < 0 then 0 else P.nTopR, decide (P.nTopR < 0)⟩
    let gp := gpCompute jac.A asm.fvec s.g s.p asm.ntotal
    let f_old := asm.sum / 2
    match matSolModel jac.A asm.ntotal P.nlevel gp.2 with
    | .error e => .error (mapLuErr e, jac.st)
    | .ok ap =>
      let snorm := P.sqrtQ ((List.range' 2 (asm.ntotal - 2)).foldl
        (fun s i => s + (ap.2.getD i 0) ^ 2) 0)
      let pdf :=
        if stepMax1 < snorm then
          (List.range asm.ntotal).foldl
            (fun (pd : List ℚ × List ℚ) i =>
              let newv := pd.1.getD i 0 * (stepMax1 / snorm)
              (pd.1.set i newv, pd.2.set i (-newv)))
            (ap.2, asm.dflux)
        else (ap.2, asm.dflux)
      let slope := (List.range asm.ntotal).foldl
        (fun s i => s + gp.1.getD i 0 * pdf.1.getD i 0) 0
      let tstep := runMax ((List.range asm.ntotal).map
        (fun i => absQ (pdf.1.getD i 0) / temp_old.getD i 0))
      if tstep = 0 then .error (.zeroDivision, jac.st)
      else
        let alamin := tolxC / tstep
        match lineSearchLoop P beta pdf.1 gp.1 pdf.2 slope alamin f_old
            temp_old fluxNetV fluxNetVLayer asm.ntotal P.lineFuel
            ⟨jac.st, jac.fluxIr, jac.fluxIrLayer, jac.plusIr0, asm.fvec,
              f_old, f_old, 1, s.alam2, false, 0⟩ with
        | .error e => .error e
        | .ok ls =>
          let profiles2 := if P.save_profile = 1 then s.profiles ++ temp_old
            else s.profiles
          if ls.flag = 2 then
            .ok (.inl ⟨ls.st.temp, dtdpOf P ls.st.temp ls.st.pressure, 2,
              ls.fluxIr, ls.plusIr0, profiles2, ls.st.pressure⟩)
          else
            .ok (.inr { st := ls.st
                        fluxIr := ls.fluxIr
                        fluxIrLayer := ls.fluxIrLayer
                        plusIr0 := ls.plusIr0
                        dflux := pdf.2
                        fvec := ls.fvec
                        p := pdf.1
                        g := gp.1
                        A := ap.1
                        stepMax := stepMax1
                        alam2 := ls.alam2
                        profiles := profiles2
                        lastFlag := some ls.flag })

/-- The outer iteration loop `for its in range(it_max)` (line 470) with the
exhaustion return (lines 1003-1009); with `it_max = 0` the source would
reference the unbound `flag_converge` at line 1009. -/
def outerIter (P : TParams) (fluxNetV fluxNetVLayer : List ℚ) :
    ℕ → OuterSt → Except (TErr × TState) TResult
  | 0, s =>
    match s.lastFlag with
    | none => .error (.unboundLocal, s.st)
    | some fl =>
      .ok ⟨s.st.temp, dtdpOf P s.st.temp s.st.pressure, fl, s.fluxIrLayer,
        s.plusIr0, s.profiles, s.st.pressure⟩
  | its + 1, s =>
    match outerStep P fluxNetV fluxNetVLayer s with
    | .error e => .error e
    | .ok (.inl r) => .ok r
    | .ok (.inr s2) => outerIter P fluxNetV fluxNetVLayer its s2

/-- The function `t_start` (lines 337-1009): the initial both-bands flux call
(lines 437-453), the scratch allocations (lines 458-466), and the outer
iteration loop. -/
def t_start_model (P : TParams) (temp0 pressure profiles0 : List ℚ) :
    Except (TErr × TState) TResult :=
  let fr0 := P.fluxFn pressure temp0 true true
  outerIter P fr0.vLevel fr0.vLayer P.it_max
    ⟨⟨temp0, pressure⟩, fr0.irLevel, fr0.irLayer, fr0.plusIr0,
      List.replicate P.nlevel 0, List.replicate P.nlevel 0,
      List.replicate P.nlevel 0, List.replicate P.nlevel 0,
      (fun _ _ => 0), 1 / 100, 0, profiles0, none⟩

/-! ### Claim C9: the pressure array is never written -/

theorem foldl_proj_const {α β γ : Type} (f : β → α → β) (proj : β → γ)
    (h : ∀ b a, proj (f b a) = proj b) :
    ∀ (l : List α) (b : β), proj (l.foldl f b) = proj b := by
  intro l
  induction l with
  | nil => intro b; rfl
  | cons hd tl ih =>
    intro b
    rw [List.foldl_cons, ih, h]

theorem jacZone_pressure (P : TParams) (temp_old fnetOld fmidOld : List ℚ)
    (s : JacSt) (nz : ℕ) :
    (jacZone P temp_old fnetOld fmidOld s nz).st.pressure = s.st.pressure := by
  unfold jacZone
  refine foldl_proj_const _ (fun s : JacSt => s.st.pressure) (fun b a => ?_) _ s
  rfl

theorem jacFold_pressure (P : TParams) (temp_old fnetOld fmidOld : List ℚ)
    (l : List ℕ) (s : JacSt) :
    (l.foldl (jacZone P temp_old fnetOld fmidOld) s).st.pressure
      = s.st.pressure :=
  foldl_proj_const _ (fun s : JacSt => s.st.pressure)
    (fun b a => jacZone_pressure P temp_old fnetOld fmidOld b a) l s

theorem lineSearchLoop_pressure (P : TParams) (beta p g dflux : List ℚ)
    (slope alamin f_old : ℚ) (temp_old fluxNetV fluxNetVLayer : List ℚ)
    (ntotal : ℕ) :
    ∀ (fuel : ℕ) (s : LSSt) (out : Except (TErr × TState) LSSt),
      lineSearchLoop P beta p g dflux slope alamin f_old temp_old
        fluxNetV fluxNetVLayer ntotal fuel s = out →
      (match out with
       | .ok r => r.st.pressure = s.st.pressure
       | .error es => es.2.pressure = s.st.pressure) := by
  intro fuel
  induction fuel with
  | zero =>
    intro s out h
    rw [← h]
    rfl
  | succ fuel ih =>
    intro s out h
    rw [← h]
    simp only [lineSearchLoop]
    split_ifs with h1 h2
    · rfl
    · rfl
    · split
      · next r heq =>
          split at heq
          · cases heq
          · have := ih _ _ heq
            exact this
      · next es heq =>
          split at heq
          · next e heq2 =>
              injection heq with h3
              rw [← h3]
              rfl
          · have := ih _ _ heq
            exact this

theorem outerStep_pressure (P : TParams) (fluxNetV fluxNetVLayer : List ℚ)
    (s : OuterSt) (out : Except (TErr × TState) (TResult ⊕ OuterSt)) :
    outerStep P fluxNetV fluxNetVLayer s = out →
    (match out with
     | .ok (.inl r) => r.pressure = s.st.pressure
     | .ok (.inr s2) => s2.st.pressure = s.st.pressure
     | .error es => es.2.pressure = s.st.pressure) := by
  intro h
  rw [← h]
  simp only [outerStep]
  by_cases hc1 : P.tidal.getD 0 0 = 0
  · simp only [if_pos hc1]
  · simp only [if_neg hc1]
    set fnet := totalFlux P s.fluxIr fluxNetV with hfnet
    set fmid := totalFlux P s.fluxIrLayer fluxNetVLayer with hfmid
    set asm := assembly1 P fnet fmid s.st.temp s.dflux s.fvec with hasm
    by_cases hc2 : asm.test / absQ (P.tidal.getD 0 0) < 1 / 100 * tolfC
    · simp only [if_pos hc2]
    · simp only [if_neg hc2]
      set jac := List.foldl (jacZone P s.st.temp s.fluxIr s.fluxIrLayer)
        { st := s.st, beta := s.st.temp, A := s.A, fluxIr := s.fluxIr
          fluxIrLayer := s.fluxIrLayer, plusIr0 := s.plusIr0
          no := if P.nTopR < 0 then 0 else P.nTopR
          flagNo := decide (P.nTopR < 0) } (zoneStarts P.nofczns) with hjac
      have hjacp : jac.st.pressure = s.st.pressure := by
        rw [hjac]
        exact jacFold_pressure P _ _ _ _ _
      set gp := gpCompute jac.A asm.fvec s.g s.p asm.ntotal with hgp
      cases hms : matSolModel jac.A asm.ntotal P.nlevel gp.2 with
      | error e =>
        simp only [hms]
        exact hjacp
      | ok ap =>
        simp only [hms]
        set snorm := P.sqrtQ (List.foldl (fun s i => s + ap.2.getD i 0 ^ 2) 0
          (List.range' 2 (asm.ntotal - 2))) with hsnorm
        set stepMax1 := s.stepMax * pyMax (P.sqrtQ asm.sum1) (asm.ntotal : ℚ) with hsm
        set pdf := (if stepMax1 < snorm then
            List.foldl (fun pd i =>
              let newv := pd.1.getD i 0 * (stepMax1 / snorm)
              (pd.1.set i newv, pd.2.set i (-newv))) (ap.2, asm.dflux)
              (List.range asm.ntotal)
          else (ap.2, asm.dflux)) with hpdf
        set slope := List.foldl (fun s i => s + gp.1.getD i 0 * pdf.1.getD i 0) 0
          (List.range asm.ntotal) with hslope
        set tstep := runMax (List.map (fun i => absQ (pdf.1.getD i 0) / s.st.temp.getD i 0)
          (List.range asm.ntotal)) with htstep
        by_cases hc3 : tstep = 0
        · simp only [if_pos hc3]
          exact hjacp
        · simp only [if_neg hc3]
          cases hls : lineSearchLoop P s.st.temp pdf.1 gp.1 pdf.2 slope
              (tolxC / tstep) (asm.sum / 2) s.st.temp fluxNetV fluxNetVLayer
              asm.ntotal P.lineFuel
              { st := jac.st, fluxIr := jac.fluxIr, fluxIrLayer := jac.fluxIrLayer
                plusIr0 := jac.plusIr0, fvec := asm.fvec, f := asm.sum / 2
                f2 := asm.sum / 2, alam := 1, alam2 := s.alam2
                check := false, flag := 0 } with
          | error e =>
            simp only [hls]
            have hlp := lineSearchLoop_pressure _ _ _ _ _ _ _ _ _ _ _ _ _ _ _ hls
            exact hlp.trans hjacp
          | ok ls =>
            simp only [hls]
            have hlp := lineSearchLoop_pressure _ _ _ _ _ _ _ _ _ _ _ _ _ _ _ hls
            by_cases hc4 : ls.flag = 2
            · simp only [if_pos hc4]
              exact hlp.trans hjacp
            · simp only [if_neg hc4]
              exact hlp.trans hjacp

theorem outerIter_pressure (P : TParams) (fluxNetV fluxNetVLayer : List ℚ) :
    ∀ (its : ℕ) (s : OuterSt) (out : Except (TErr × TState) TResult),
      outerIter P fluxNetV fluxNetVLayer its s = out →
      (match out with
       | .ok r => r.pressure = s.st.pressure
       | .error es => es.2.pressure = s.st.pressure) := by
  intro its
  induction its with
  | zero =>
    intro s out h
    rw [← h]
    unfold outerIter
    cases hlf : s.lastFlag with
    | none => simp only [hlf]
    | some fl => simp only [hlf]
  | succ its ih =>
    intro s out h
    rw [← h]
    simp only [outerIter]
    cases hstep : outerStep P fluxNetV fluxNetVLayer s with
    | error es =>
      simp only [hstep]
      exact outerStep_pressure P fluxNetV fluxNetVLayer s _ hstep
    | ok v =>
      cases v with
      | inl r =>
        simp only [hstep]
        exact outerStep_pressure P fluxNetV fluxNetVLayer s _ hstep
      | inr s2 =>
        simp only [hstep]
        have h2 : s2.st.pressure = s.st.pressure :=
          outerStep_pressure P fluxNetV fluxNetVLayer s _ hstep
        have h3 := ih s2 _ rfl
        rw [← h2]
        exact h3

/-- Claim C9: across any call to `t_start` -- any number of outer iterations
and any exit path, normal return or propagated error -- the pressure array is
never modified: the pressure held by the solver at exit equals the one
supplied by the caller.  Only the temperature vector is mutated. -/
theorem t_start_pressure_immutable (P : TParams)
    (temp0 pressure profiles0 : List ℚ) :
    (∀ r, t_start_model P temp0 pressure profiles0 = .ok r →
      r.pressure = pressure) ∧
    (∀ e st, t_start_model P temp0 pressure profiles0 = .error (e, st) →
      st.pressure = pressure) := by
  constructor
  · intro r h
    exact outerIter_pressure P _ _ P.it_max _ _ h
  · intro e st h
    exact outerIter_pressure P _ _ P.it_max _ _ h

/-! ### Claim C1: the already-at-a-root fast path -/

deriving instance DecidableEq for Except


/-- A flux stub returning identically zero fluxes for a 2-level atmosphere. -/
def stubZeroFlux : List ℚ → List ℚ → Bool → Bool → FluxOut :=
  fun _ _ _ _ => ⟨[0, 0], [0, 0], [0, 0], [0, 0], [0, 0]⟩

/-- A 2-level, single-zone parameter set with zero tidal heating and the
zero-flux stub: `nstr = [0, 1, 1]`, `it_max = 1`, `rfaci = 1`, `rfacv = 0`. -/
def paramsZeroTidal : TParams :=
  ⟨1, [0, 1, 1], 1, 1, 0, 2, [0, 0], 1/2, 5000, tTable53, pTable26,
   (fun _ _ => 0), (fun _ _ => 0), stubZeroFlux, 0, id, id, id, id, 5⟩

/-- Claim C1, counterexample: for a 2-level atmosphere with zero tidal
heating and a flux evaluation returning exactly zero net flux, the
already-at-a-root check `test/abs(tidal[0])` divides by zero (a
`ZeroDivisionError` under numba's default python error model): the solver
does not report convergence at the first check and does not return the
profile. -/
theorem t_start_zero_tidal_counterexample :
    paramsZeroTidal.tidal.getD 0 0 = 0 ∧
    t_start_model paramsZeroTidal [300, 400] [1, 10] []
      = .error (.zeroDivision, ⟨[300, 400], [1, 10]⟩) ∧
    ∀ r : TResult, t_start_model paramsZeroTidal [300, 400] [1, 10] [] ≠ .ok r := by
  have hEq : t_start_model paramsZeroTidal [300, 400] [1, 10] []
      = .error (.zeroDivision, ⟨[300, 400], [1, 10]⟩) := by decide
  exact ⟨by decide, hEq, fun r h => by rw [hEq] at h; cases h⟩

/-- A flux stub whose radiative flux exactly cancels a tidal flux `c` with
`rfaci = 1`, `rfacv = 0`: total net flux is identically zero at the supplied
profile. -/
def stubBalance (c : ℚ) : List ℚ → List ℚ → Bool → Bool → FluxOut :=
  fun _ _ _ _ => ⟨[0, 0], [0, 0], [-c, -c], [-c, -c], [0, 0]⟩

/-- A 2-level, single-zone parameter set with tidal heating `[c, c]` and the
cancelling flux stub. -/
def paramsBalanced (c : ℚ) (expQ logQ log10Q sqrtQ : ℚ → ℚ) : TParams :=
  ⟨1, [0, 1, 1], 1, 1, 0, 2, [c, c], 1/2, 5000, tTable53, pTable26,
   (fun _ _ => 0), (fun _ _ => 0), stubBalance c, 0,
   expQ, logQ, log10Q, sqrtQ, 5⟩

/-- Claim C1, amended: for a 2-level atmosphere with a nonzero top tidal flux
and a flux evaluation making the total net flux (radiative plus tidal)
exactly zero at the supplied profile, the solver reports convergence at the
first already-at-a-root check (before any Newton step) and returns the
temperature profile unchanged, with the converged flag 2.  With tidal[0]
exactly zero the same check divides by zero instead (see the
counterexample). -/
theorem t_start_fastpath_amended (c t0 t1 p0 p1 : ℚ)
    (expQ logQ log10Q sqrtQ : ℚ → ℚ) (hc : c ≠ 0) :
    t_start_model (paramsBalanced c expQ logQ log10Q sqrtQ) [t0, t1] [p0, p1] []
      = .ok ⟨[t0, t1],
          dtdpOf (paramsBalanced c expQ logQ log10Q sqrtQ) [t0, t1] [p0, p1],
          2, [-c, -c], [0, 0], [], [p0, p1]⟩ := by
  have hfnet : totalFlux (paramsBalanced c expQ logQ log10Q sqrtQ)
      [-c, -c] [0, 0] = [0, 0] := by
    simp [totalFlux, paramsBalanced, List.range_succ]
  have hstep : outerStep (paramsBalanced c expQ logQ log10Q sqrtQ) [0, 0] [0, 0]
      ⟨⟨[t0, t1], [p0, p1]⟩, [-c, -c], [-c, -c], [0, 0],
        List.replicate 2 0, List.replicate 2 0, List.replicate 2 0,
        List.replicate 2 0, (fun _ _ => 0), 1 / 100, 0, [], none⟩
      = .ok (.inl ⟨[t0, t1],
          dtdpOf (paramsBalanced c expQ logQ log10Q sqrtQ) [t0, t1] [p0, p1],
          2, [-c, -c], [0, 0], [], [p0, p1]⟩) := by
    have hc0 : ¬ ((paramsBalanced c expQ logQ log10Q sqrtQ).tidal.getD 0 0 = 0) := by
      simpa [paramsBalanced] using hc
    have htest : (assembly1 (paramsBalanced c expQ logQ log10Q sqrtQ) [0, 0] [0, 0]
        [t0, t1] (List.replicate 2 0) (List.replicate 2 0)).test = 0 := by rfl
    simp only [outerStep, hfnet, htest]
    rw [if_neg hc0, if_pos (show (0 : ℚ) /
        absQ ((paramsBalanced c expQ logQ log10Q sqrtQ).tidal.getD 0 0) <
        1 / 100 * tolfC by rw [zero_div]; norm_num [tolfC])]
  show outerIter (paramsBalanced c expQ logQ log10Q sqrtQ) [0, 0] [0, 0] 1
      ⟨⟨[t0, t1], [p0, p1]⟩, [-c, -c], [-c, -c], [0, 0],
        List.replicate 2 0, List.replicate 2 0, List.replicate 2 0,
        List.replicate 2 0, (fun _ _ => 0), 1 / 100, 0, [], none⟩ = _
  simp only [outerIter, hstep]

/-- Witness for the amended C1 theorem at a concrete nonzero tidal flux. -/
theorem t_start_fastpath_amended_witness :
    ((1 : ℚ) ≠ 0) ∧
    t_start_model (paramsBalanced 1 id id id id) [300, 400] [1, 10] []
      = .ok ⟨[300, 400], dtdpOf (paramsBalanced 1 id id id id) [300, 400] [1, 10],
          2, [-1, -1], [0, 0], [], [1, 10]⟩ :=
  ⟨by norm_num,
    t_start_fastpath_amended 1 300 400 1 10 id id id id (by norm_num)⟩

/-- Witness for claim C9, applying the frame theorem on the error path of the
zero-tidal run. -/
theorem t_start_pressure_immutable_witness :
    t_start_model paramsZeroTidal [300, 400] [1, 10] []
      = .error (.zeroDivision, ⟨[300, 400], [1, 10]⟩) ∧
    (⟨[300, 400], [1, 10]⟩ : TState).pressure = [1, 10] :=
  ⟨by decide,
    (t_start_pressure_immutable paramsZeroTidal [300, 400] [1, 10] []).2
      .zeroDivision ⟨[300, 400], [1, 10]⟩ (by decide)⟩

end Climate
